import Mathlib

/-!
Verification of the ACB capital-gains engine of `cad-capital-gains`.

Shallow embedding of:
* `capgains/ticker_gains.py`   — `TickerGains` (cost-basis engine)
* `capgains/exchange_rate.py`  — `ExchangeRate` (rate table)
* `capgains/transactions.py`   — `Transactions` (ledger, journal reconciliation,
  filtering)

Decimals are embedded as `ℚ` (Python `Decimal` arithmetic at the precision the
engine uses is exact rational arithmetic for the operations involved).  Dates
are embedded as `Int` day ordinals (`date` ordering and `timedelta(days = n)`
become integer comparison and addition); the calendar-year projection
`date.year` is carried as a separate `year` field, since the code never relates
the two.
-/

namespace CapGains

/-- The transaction actions occurring in the system (`spec.md` §3 plus the
direction-ambiguous generic `JOURNAL` produced by converters).  The Python code
stores these as strings; the string tests it performs (`'JOURNAL' in action`,
equality with `'BUY'`/`'SELL'`/`'JOURNAL_IN'`/`'JOURNAL_OUT'`/`'JOURNAL'`) are
embedded as functions on this inductive. -/
inductive Action where
  | BUY
  | SELL
  | JOURNAL_IN
  | JOURNAL_OUT
  | JOURNAL
  deriving DecidableEq, Repr

/-- Python `'JOURNAL' in transaction.action` (substring test on the action
string): true exactly for the three journal-flavoured actions. -/
def Action.hasJournal : Action → Bool
  | .BUY => false
  | .SELL => false
  | _ => true

/-- A transaction record.  Input fields come from the converters; the computed
fields (`proceeds`, `capitalGain`, `acb`, `shareBalance`, `cumulativeCost`,
`superficialLoss`, `exchangeRate`) are stamped by the engine during processing
(`spec.md` §3).  The `Transaction` class itself is not under `src/` (only its
users are); its field set is modelled from the spec, with unset computed
fields carried as `0`/`false` defaults. -/
structure Tx where
  date : Int
  year : Int
  ticker : String
  action : Action
  qty : ℚ
  price : ℚ
  commission : ℚ
  currency : String
  originalText : String := ""
  exchangeRate : ℚ := 0
  proceeds : ℚ := 0
  capitalGain : ℚ := 0
  acb : ℚ := 0
  shareBalance : ℚ := 0
  cumulativeCost : ℚ := 0
  superficialLoss : Bool := false
  deriving DecidableEq, Repr

instance : Inhabited Tx :=
  ⟨{ date := 0, year := 0, ticker := "", action := .BUY, qty := 0, price := 0,
     commission := 0, currency := "" }⟩

/-- Modelled from the spec: the `Transaction.expenses` property (the class is
not under `src/`).  Per `spec.md` §4.3 the engine charges
`commission × exchange_rate` (the commission in CAD) — `ticker_gains.py` reads
this as `transaction.expenses`. -/
def Tx.expenses (t : Tx) : ℚ :=
  t.commission * t.exchangeRate

/-- Modelled from the spec: `Transaction.add_rate` (the class is not under
`src/`).  Per `spec.md` §4.3 step 1, it resolves the exchange rate via the
provided rate source, keyed by the transaction's currency (and date), and
stores it on the record. -/
def Tx.addRate (t : Tx) (rate : ℚ) : Tx :=
  { t with exchangeRate := rate }

/-- Modelled from the spec: `Transaction.set_superficial_loss` (the class is
not under `src/`).  Per `spec.md` §4.3 step 3, it marks
`superficial_loss = true` on the record. -/
def Tx.setSuperficialLoss (t : Tx) : Tx :=
  { t with superficialLoss := true }

/-- The running per-ticker engine state: `TickerGains._share_balance` and
`TickerGains._total_acb`, both starting at `0`. -/
structure GState where
  shareBalance : ℚ
  totalAcb : ℚ
  deriving DecidableEq, Repr

/-- The engine's initial state (`TickerGains.__init__`). -/
def GState.init : GState := ⟨0, 0⟩

/-- Failures of the engine: the `ClickException` for a negative share balance
(`ticker_gains.py` line 105), and the uncaught `ValueError` that
`list.index` raises in `_is_superficial_loss` when the candidate transaction
is not in its own window-filtered list. -/
inductive EngineErr where
  | negativeBalance
  | valueErr
  deriving DecidableEq, Repr

/-- `TickerGains._add_transaction`.  Journal-flavoured actions take the early
branch (lines 69–84): the share balance moves by `±qty` for
`JOURNAL_IN`/`JOURNAL_OUT` (a generic `JOURNAL` moves nothing), `total_acb` is
untouched, and the record is stamped with zero `proceeds`/`capital_gain`/`acb`;
note this branch returns before the negative-balance check.  Otherwise the
BUY/SELL arithmetic of lines 86–111 runs, raising when the updated balance is
negative (before stamping the record). -/
def addTransaction (s : GState) (t : Tx) : Except EngineErr (GState × Tx) :=
  if t.action.hasJournal then
    let sb : ℚ :=
      if t.action = .JOURNAL_IN then s.shareBalance + t.qty
      else if t.action = .JOURNAL_OUT then s.shareBalance - t.qty
      else s.shareBalance
    .ok ({ shareBalance := sb, totalAcb := s.totalAcb },
         { t with proceeds := 0, capitalGain := 0, acb := 0,
                  shareBalance := sb, cumulativeCost := s.totalAcb })
  else
    let oldAcbPerShare : ℚ :=
      if s.shareBalance = 0 then 0 else s.totalAcb / s.shareBalance
    let proceeds : ℚ := t.qty * t.price * t.exchangeRate
    let sb : ℚ :=
      if t.action = .SELL then s.shareBalance - t.qty else s.shareBalance + t.qty
    let acb : ℚ :=
      if t.action = .SELL then oldAcbPerShare * t.qty else proceeds + t.expenses
    let capitalGain : ℚ :=
      if t.action = .SELL then proceeds - t.expenses - acb else 0
    let totalAcb : ℚ :=
      if t.action = .SELL then s.totalAcb - acb else s.totalAcb + acb
    if sb < 0 then
      .error .negativeBalance
    else
      .ok ({ shareBalance := sb, totalAcb := totalAcb },
           { t with shareBalance := sb, proceeds := proceeds,
                    capitalGain := capitalGain, acb := acb,
                    cumulativeCost := totalAcb })

/-- `TickerGains._superficial_window_filter`: same ticker and date within
`[minDate, maxDate]`. -/
def windowFilter (ticker : String) (lo hi : Int) (t : Tx) : Bool :=
  t.ticker == ticker && decide (lo ≤ t.date) && decide (t.date ≤ hi)

/-- One step of the balance walk in `_is_superficial_loss` (lines 55–63):
SELL and JOURNAL_OUT subtract `qty`, BUY and JOURNAL_IN add it; any other
action (the generic `JOURNAL`) leaves the balance unchanged. -/
def stepBalance (b : ℚ) (t : Tx) : ℚ :=
  if t.action = .SELL then b - t.qty
  else if t.action = .BUY then b + t.qty
  else if t.action = .JOURNAL_IN then b + t.qty
  else if t.action = .JOURNAL_OUT then b - t.qty
  else b

/-- `TickerGains._is_superficial_loss`, for the candidate `t` whose position in
the full transaction list is given by the split `pre ++ [t] ++ post`.  Python
finds that position with `filtered_transactions.index(transaction)` (object
identity); when `t` does not pass its own window filter (only possible when
`t.ticker ≠ ticker`), `index` raises an uncaught `ValueError`, modelled as
`.error`.  The window filter and the balance walk read only fields the engine
never rewrites (`ticker`, `date`, `action`, `qty`), so evaluating them over the
split of the caller's (partially stamped) list is exact. -/
def isSuperficialLoss (ticker : String) (t : Tx) (pre post : List Tx) :
    Except EngineErr Bool :=
  if t.action.hasJournal then .ok false
  else if 0 ≤ t.capitalGain then .ok false
  else
    let lo : Int := t.date - 30
    let hi : Int := t.date + 30
    let filtered := (pre ++ t :: post).filter (windowFilter ticker lo hi)
    if ¬ filtered.any (fun u => u.action = .BUY) then .ok false
    else if windowFilter ticker lo hi t then
      .ok (decide
        (0 < (post.filter (windowFilter ticker lo hi)).foldl stepBalance
          t.shareBalance))
    else .error .valueErr

/-- One iteration of the loop body of `TickerGains.add_transactions`
(lines 15–20): resolve the rate onto the record, apply the transaction, then
test for a superficial loss against the full passed-in list (here split as
`pre`, `t`, `post`) and, if triggered, add the denied loss back into
`total_acb` and mark the record. -/
def processTransaction (ticker : String) (rates : String → Int → ℚ)
    (s : GState) (pre : List Tx) (t : Tx) (post : List Tx) :
    Except EngineErr (GState × Tx) :=
  match addTransaction s (t.addRate (rates t.currency t.date)) with
  | .error e => .error e
  | .ok (s2, t2) =>
    match isSuperficialLoss ticker t2 pre post with
    | .error e => .error e
    | .ok true =>
      .ok ({ s2 with totalAcb := s2.totalAcb - t2.capitalGain },
           t2.setSuperficialLoss)
    | .ok false => .ok (s2, t2)

/-- The loop of `TickerGains.add_transactions` over the remaining suffix,
with `pre` the already-processed (stamped, as the shared Python list holds
them) prefix.  Returns the final state and the stamped records. -/
def runTransactions (ticker : String) (rates : String → Int → ℚ) :
    GState → List Tx → List Tx → Except EngineErr (GState × List Tx)
  | s, _, [] => .ok (s, [])
  | s, pre, t :: post =>
    match processTransaction ticker rates s pre t post with
    | .error e => .error e
    | .ok (s', t') =>
      match runTransactions ticker rates s' (pre ++ [t']) post with
      | .error e => .error e
      | .ok (sf, ts) => .ok (sf, t' :: ts)

/-- `TickerGains.add_transactions` run from the freshly-constructed engine. -/
def addTransactions (ticker : String) (rates : String → Int → ℚ)
    (ts : List Tx) : Except EngineErr (GState × List Tx) :=
  runTransactions ticker rates .init [] ts

/-! ### `capgains/exchange_rate.py` — `ExchangeRate` -/

/-- `ExchangeRate.min_date = date(2017, 1, 3)`, as a proleptic-Gregorian day
ordinal (Python `date.toordinal()`). -/
def minDate : Int := 736332

/-- Failures of the rate lookup: the `ClickException` of `get_rate`
("Unable to find exchange rate"), and the uncaught `ValueError` that Python's
`min` raises in `_get_closest_rate_for_day` on an empty `dates_preceeding`. -/
inductive RateErr where
  | rateNotFound
  | valueErr
  deriving DecidableEq, Repr

/-- Python `min(xs, key := f)`: the first element attaining the minimal key
(`none` on an empty iterable, where Python raises `ValueError`). -/
def pyMinBy (f : Int → Int) : List Int → Option Int
  | [] => none
  | x :: xs => some (xs.foldl (fun m y => if f y < f m then y else m) x)

/-- `ExchangeRate._get_closest_rate_for_day`.  The rate dictionary
`self._rates` is embedded as an association list with (provider-)unique date
keys; `date in self._rates` is `List.lookup`.  Dates at or before `min_date`
yield `None`; an exact hit returns directly; otherwise the closest of the
strictly-preceding known dates is used, `ValueError` escaping from `min` when
there is none. -/
def getClosestRateForDay (rates : List (Int × ℚ)) (d : Int) :
    Except RateErr (Option ℚ) :=
  if d ≤ minDate then .ok none
  else
    match rates.lookup d with
    | some r => .ok (some r)
    | none =>
      match pyMinBy (fun x => |x - d|)
          (((rates.map Prod.fst).filter (fun x => decide (x < d)))) with
      | none => .error .valueErr
      | some c => .ok (rates.lookup c)

/-- `ExchangeRate.get_rate`.  Note the Python guard is `if not rate:`, which
trips both on `None` and on a stored rate of `0.0` (falsiness). -/
def getRate (rates : List (Int × ℚ)) (d : Int) : Except RateErr ℚ :=
  match getClosestRateForDay rates d with
  | .error e => .error e
  | .ok none => .error .rateNotFound
  | .ok (some r) => if r = 0 then .error .rateNotFound else .ok r

/-- The configuration failures of `ExchangeRate.__init__` (lines 19–25),
raised before the rate provider is contacted. -/
inductive InitErr where
  | endBeforeStart
  | startBeforeMin
  deriving DecidableEq, Repr

/-- `ExchangeRate.__init__` with the external rate provider abstracted as the
oracle `fetch` (currency pair and queried date range to observations).  The
two date-range validations run first; only then is the provider consulted,
over `[start_date − 7 days, end_date]`. -/
def exchangeRateInit (fetch : String → Int → Int → List (Int × ℚ))
    (currencyFrom : String) (startDate endDate : Int) :
    Except InitErr (List (Int × ℚ)) :=
  if endDate < startDate then .error .endBeforeStart
  else if startDate < minDate then .error .startBeforeMin
  else .ok (fetch currencyFrom (startDate - 7) endDate)

/-! ### `capgains/transactions.py` — `Transactions`

Python's `Transactions` holds *references* to shared, mutable transaction
objects; `filter_by` builds a new `Transactions` over a subset of the same
objects, and that constructor re-runs `match_journal_transactions`, which
assigns `t._action` in place.  To make this aliasing observable, the object
store is embedded explicitly: a heap `List Tx` of transaction objects, and a
ledger as the list of heap indices (object identities) it holds. -/

/-- Read the transaction object at heap index `i`. -/
def getTx (h : List Tx) (i : Nat) : Tx :=
  h.getD i default

/-- Overwrite the transaction object at heap index `i` (out-of-range writes,
which never occur, are no-ops). -/
def setTx (h : List Tx) (i : Nat) (t : Tx) : List Tx :=
  h.set i t

/-- Naive substring test: Python's `pat in s`. -/
def containsStr (s pat : String) : Bool :=
  (List.range (s.length + 1)).any (fun i => ((s.drop i).take pat.length) == pat)

/-- The "Transfer Out" textual evidence test of `match_journal_transactions`. -/
def textOut (s : String) : Bool :=
  containsStr s "Transfer Out" || containsStr s "Transferred Out"

/-- The "Transfer In" textual evidence test of `match_journal_transactions`. -/
def textIn (s : String) : Bool :=
  containsStr s "Transfer In" || containsStr s "Transferred In"

/-- The per-object text heuristic used inside the 2-element all-generic branch
of `match_journal_transactions` (lines 89–95): if retained source text is
present, "Transfer(red) Out" forces `JOURNAL_OUT`, else "Transfer(red) In"
forces `JOURNAL_IN`; otherwise the object is untouched.  No action guard: the
branch has already checked the whole group is generic. -/
def textTx (t : Tx) : Tx :=
  if t.originalText ≠ "" then
    if textOut t.originalText then { t with action := .JOURNAL_OUT }
    else if textIn t.originalText then { t with action := .JOURNAL_IN }
    else t
  else t

/-- The per-object resolution used for groups of size 1 and of size ≥ 3
(lines 111–125 and 128–142, which are the same logic): only a still-generic
`JOURNAL` is touched; text evidence wins, else the currency heuristic
(CAD ⇒ `JOURNAL_IN`, otherwise `JOURNAL_OUT`). -/
def resolveTx (t : Tx) : Tx :=
  if t.action = .JOURNAL then
    if t.originalText ≠ "" then
      if textOut t.originalText then { t with action := .JOURNAL_OUT }
      else if textIn t.originalText then { t with action := .JOURNAL_IN }
      else t
    else if t.currency == "CAD" then { t with action := .JOURNAL_IN }
    else { t with action := .JOURNAL_OUT }
  else t

/-- Apply `resolveTx` in place at heap index `i`. -/
def resolveAt (h : List Tx) (i : Nat) : List Tx :=
  setTx h i (resolveTx (getTx h i))

/-- Apply `textTx` in place at heap index `i`. -/
def textAt (h : List Tx) (i : Nat) : List Tx :=
  setTx h i (textTx (getTx h i))

/-- One step of the `in_tx`/`out_tx` currency loop of the 2-element all-generic
branch (lines 101–108), threading the heap and whether an IN (resp. OUT)
assignment has been made. -/
def currencyStep (st : List Tx × Bool × Bool) (i : Nat) : List Tx × Bool × Bool :=
  let h := st.1
  let inAssigned := st.2.1
  let outAssigned := st.2.2
  if (getTx h i).action = .JOURNAL then
    if !inAssigned && (getTx h i).currency == "CAD" then
      (setTx h i { getTx h i with action := .JOURNAL_IN }, true, outAssigned)
    else if !outAssigned then
      (setTx h i { getTx h i with action := .JOURNAL_OUT }, inAssigned, true)
    else
      (h, inAssigned, outAssigned)
  else
    (h, inAssigned, outAssigned)

/-- `sorted(group, key := currency)` for the only place it is used, a group of
exactly two objects; Python's sort is stable, so the pair swaps exactly when
the second key is strictly smaller. -/
def sortPairByCurrency (h : List Tx) (g : List Nat) : List Nat :=
  match g with
  | [i, j] => if (getTx h j).currency < (getTx h i).currency then [j, i] else [i, j]
  | _ => g

/-- Process one `(date, qty)` group of journal objects (the body of the loop at
lines 75–142 of `match_journal_transactions`).  A 2-element group already
holding both `JOURNAL_IN` and `JOURNAL_OUT` is skipped; a 2-element all-generic
group is sorted by currency, then text evidence and the `in_tx`/`out_tx`
currency loop assign directions; any other 2-element group is left alone.
Groups of any other size resolve each object independently. -/
def processGroup (h : List Tx) (g : List Nat) : List Tx :=
  if g.length = 2 then
    let acts := g.map (fun i => (getTx h i).action)
    if acts.contains .JOURNAL_IN && acts.contains .JOURNAL_OUT then h
    else if g.all (fun i => (getTx h i).action = .JOURNAL) then
      let sg := sortPairByCurrency h g
      let h1 := sg.foldl textAt h
      (sg.foldl currencyStep (h1, false, false)).1
    else h
  else
    g.foldl resolveAt h

/-- The `(date, float(qty))` grouping key of `match_journal_transactions`. -/
def groupKey (h : List Tx) (i : Nat) : Int × ℚ :=
  ((getTx h i).date, (getTx h i).qty)

/-- The distinct group keys in first-occurrence order (Python's `defaultdict`
iterates keys in insertion order). -/
def groupKeysList (h : List Tx) (idxs : List Nat) : List (Int × ℚ) :=
  idxs.foldl (fun ks i => if ks.contains (groupKey h i) then ks else ks ++ [groupKey h i]) []

/-- The journal members of the ledger `ids` (Python
`[t for t in self.transactions if 'JOURNAL' in t.action or t.action == 'JOURNAL']`;
the second disjunct is subsumed by the first). -/
def journalIds (h : List Tx) (ids : List Nat) : List Nat :=
  ids.filter (fun i => (getTx h i).action.hasJournal)

/-- `Transactions.match_journal_transactions` over the ledger `ids`, as a heap
transformation: group the journal objects by `(date, qty)` — membership
computed against the heap as it stood at entry, which is exact because the
grouping fields are never reassigned — and process the groups in key order. -/
def matchJournalTransactions (h : List Tx) (ids : List Nat) : List Tx :=
  let jids := journalIds h ids
  (groupKeysList h jids).foldl
    (fun acc k => processGroup acc (jids.filter (fun i => groupKey h i = k))) h

/-- The `Transactions` constructor over the objects at `ids`: stores the ids
(appending them in order) and runs journal reconciliation on the shared heap. -/
def mkTransactions (h : List Tx) (ids : List Nat) : List Tx × List Nat :=
  (matchJournalTransactions h ids, ids)

/-- The argument record of `Transactions.filter_by`; `none` is Python `None`
(parameter not supplied). -/
structure FilterArgs where
  tickers : Option (List String) := none
  year : Option Int := none
  maxYear : Option Int := none
  action : Option Action := none
  superficialLoss : Option Bool := none

/-- The `lambda_filter` closure of `filter_by`.  Python guards each clause
with truthiness: an absent (or empty) `tickers` list, an absent (or zero)
`year`/`max_year`, and an absent `action` all match everything;
`superficial_loss` alone is compared against `None` explicitly and so is
honoured even when `False`. -/
def lambdaFilter (a : FilterArgs) (t : Tx) : Bool :=
  (match a.tickers with
   | some l => if l ≠ [] then l.contains t.ticker else true
   | none => true) &&
  (match a.year with
   | some y => if y ≠ 0 then decide (t.year = y) else true
   | none => true) &&
  (match a.maxYear with
   | some y => if y ≠ 0 then decide (t.year ≤ y) else true
   | none => true) &&
  (match a.action with
   | some act => decide (t.action = act)
   | none => true) &&
  (match a.superficialLoss with
   | some b => t.superficialLoss == b
   | none => true)

/-- `Transactions.filter_by`: select the ledger's matching object ids and hand
the *same* objects to the `Transactions` constructor, which re-runs journal
reconciliation on the shared heap.  Returns the updated heap and the new
ledger. -/
def filterBy (h : List Tx) (ids : List Nat) (a : FilterArgs) : List Tx × List Nat :=
  mkTransactions h (ids.filter (fun i => lambdaFilter a (getTx h i)))

/-! ### Proof infrastructure definitions -/

/-- One reconciliation-reachable change of a record: untouched, or a generic
`JOURNAL` given a direction. -/
def evolves (u v : Tx) : Prop :=
  v = u ∨ (u.action = .JOURNAL ∧
    (v = { u with action := .JOURNAL_IN } ∨ v = { u with action := .JOURNAL_OUT }))

/-- The closed form of the 2-element all-generic branch of `processGroup`:
what the text pass plus the `in_tx`/`out_tx` currency loop make of the sorted
pair of records `(ta, tb)`.  Proved equal to the heap-threading fold in
`pairGen_eq`. -/
def currencyPair (ta tb : Tx) : Tx × Tx :=
  if (textTx ta).action = .JOURNAL then
    if (textTx ta).currency == "CAD" then
      ({ textTx ta with action := .JOURNAL_IN },
       if (textTx tb).action = .JOURNAL then
         { textTx tb with action := .JOURNAL_OUT }
       else textTx tb)
    else
      ({ textTx ta with action := .JOURNAL_OUT },
       if (textTx tb).action = .JOURNAL then
         (if (textTx tb).currency == "CAD" then
            { textTx tb with action := .JOURNAL_IN }
          else textTx tb)
       else textTx tb)
  else
    (textTx ta,
     if (textTx tb).action = .JOURNAL then
       (if (textTx tb).currency == "CAD" then
          { textTx tb with action := .JOURNAL_IN }
        else { textTx tb with action := .JOURNAL_OUT })
     else textTx tb)

/-! ### Concrete instances used in counterexamples and witnesses -/

/-- `old_acb_per_share` (lines 86–90): the running average cost per share,
with the division-by-zero guard. -/
def acbPerShare (s : GState) : ℚ :=
  if s.shareBalance = 0 then 0 else s.totalAcb / s.shareBalance

/-- A `JOURNAL_OUT` for 5 shares from an empty ledger. -/
def cxJOut : Tx :=
  { date := 0, year := 2020, ticker := "X", action := .JOURNAL_OUT, qty := 5,
    price := 0, commission := 0, currency := "USD" }

/-- A concrete `JOURNAL_IN` of 5 shares. -/
def wJIn : Tx :=
  { date := 0, year := 2020, ticker := "X", action := .JOURNAL_IN, qty := 5,
    price := 0, commission := 0, currency := "CAD" }

/-- A concrete `SELL`: 10 shares at price 3 with commission 1 at exchange
rate 2, from a balance of 10 shares with total ACB 102. -/
def wSell : Tx :=
  { date := 0, year := 2020, ticker := "X", action := .SELL, qty := 10,
    price := 3, commission := 1, currency := "USD", exchangeRate := 2 }

/-- The record `wSell` comes out stamped as. -/
def wSellOut : Tx :=
  { wSell with shareBalance := 0, proceeds := 60, capitalGain := -44,
               acb := 102, cumulativeCost := 0 }

/-- A `JOURNAL_IN` already tagged by the converter, paired by `(date, qty)`
with a direction-ambiguous generic `JOURNAL`. -/
def cxPairIn : Tx :=
  { date := 10, year := 2020, ticker := "DLR", action := .JOURNAL_IN,
    qty := 100, price := 0, commission := 0, currency := "USD" }

/-- The generic `JOURNAL` partner of `cxPairIn` (same date and qty). -/
def cxPairGen : Tx :=
  { cxPairIn with action := .JOURNAL, currency := "CAD" }

/-- A `BUY` of the same ticker 15 days after `wSell`, re-establishing a
positive balance inside the 61-day superficial-loss window. -/
def wBuyLater : Tx :=
  { date := 15, year := 2020, ticker := "X", action := .BUY, qty := 10,
    price := 3, commission := 1, currency := "USD" }

/-! ## Helper characterizations of the engine step -/

/-- `_add_transaction` on a journal-flavoured action: the early branch of
lines 69–84, which returns before the negative-balance check. -/
theorem addTransaction_journal (s : GState) (t : Tx)
    (h : t.action.hasJournal = true) :
    addTransaction s t =
      .ok (⟨if t.action = .JOURNAL_IN then s.shareBalance + t.qty
            else if t.action = .JOURNAL_OUT then s.shareBalance - t.qty
            else s.shareBalance, s.totalAcb⟩,
           { t with proceeds := 0, capitalGain := 0, acb := 0,
                    shareBalance :=
                      if t.action = .JOURNAL_IN then s.shareBalance + t.qty
                      else if t.action = .JOURNAL_OUT then s.shareBalance - t.qty
                      else s.shareBalance,
                    cumulativeCost := s.totalAcb }) := by
  simp [addTransaction, h]

/-- An action on which `'JOURNAL' in action` fails is `BUY` or `SELL`. -/
theorem action_of_not_journal {a : Action} (h : a.hasJournal = false) :
    a = .BUY ∨ a = .SELL := by
  cases a <;> simp_all [Action.hasJournal]

/-- `_add_transaction` on `SELL`: the arithmetic of lines 86–111. -/
theorem addTransaction_sell (s : GState) (t : Tx) (h : t.action = .SELL) :
    addTransaction s t =
      if s.shareBalance - t.qty < 0 then .error .negativeBalance
      else
        .ok (⟨s.shareBalance - t.qty, s.totalAcb - acbPerShare s * t.qty⟩,
          { t with shareBalance := s.shareBalance - t.qty,
                   proceeds := t.qty * t.price * t.exchangeRate,
                   capitalGain := t.qty * t.price * t.exchangeRate - t.expenses -
                     acbPerShare s * t.qty,
                   acb := acbPerShare s * t.qty,
                   cumulativeCost := s.totalAcb - acbPerShare s * t.qty }) := by
  simp [addTransaction, h, Action.hasJournal, acbPerShare]

/-- `_add_transaction` on `BUY`: the arithmetic of lines 86–111. -/
theorem addTransaction_buy (s : GState) (t : Tx) (h : t.action = .BUY) :
    addTransaction s t =
      if s.shareBalance + t.qty < 0 then .error .negativeBalance
      else
        .ok (⟨s.shareBalance + t.qty,
              s.totalAcb + (t.qty * t.price * t.exchangeRate + t.expenses)⟩,
          { t with shareBalance := s.shareBalance + t.qty,
                   proceeds := t.qty * t.price * t.exchangeRate,
                   capitalGain := 0,
                   acb := t.qty * t.price * t.exchangeRate + t.expenses,
                   cumulativeCost := s.totalAcb +
                     (t.qty * t.price * t.exchangeRate + t.expenses) }) := by
  simp [addTransaction, h, Action.hasJournal]

/-- The superficial-loss test short-circuits on journal-flavoured actions
(line 34). -/
theorem isSuperficialLoss_journal (ticker : String) (t : Tx) (pre post : List Tx)
    (h : t.action.hasJournal = true) :
    isSuperficialLoss ticker t pre post = .ok false := by
  simp [isSuperficialLoss, h]

/-- The engine never reassigns a record's action: an `.ok` step returns a
record with the input's action. -/
theorem addTransaction_ok_action (s : GState) (t : Tx) (s' : GState) (t' : Tx)
    (h : addTransaction s t = .ok (s', t')) : t'.action = t.action := by
  cases hj : t.action.hasJournal
  · rcases action_of_not_journal hj with ha | ha
    · rw [addTransaction_buy s t ha] at h
      split at h
      · exact absurd h (by simp)
      · simp only [Except.ok.injEq, Prod.mk.injEq] at h
        rw [← h.2]
    · rw [addTransaction_sell s t ha] at h
      split at h
      · exact absurd h (by simp)
      · simp only [Except.ok.injEq, Prod.mk.injEq] at h
        rw [← h.2]
  · rw [addTransaction_journal s t hj] at h
    simp only [Except.ok.injEq, Prod.mk.injEq] at h
    rw [← h.2]

/-- A full loop iteration on a journal-flavoured transaction: the rate is
stamped, the journal branch applies, and the superficial-loss test declines,
so the record comes out with zero `proceeds`/`capital_gain`/`acb`. -/
theorem processTransaction_journal (ticker : String) (rates : String → Int → ℚ)
    (s : GState) (pre : List Tx) (t : Tx) (post : List Tx)
    (h : t.action.hasJournal = true) :
    processTransaction ticker rates s pre t post =
      .ok (⟨if t.action = .JOURNAL_IN then s.shareBalance + t.qty
            else if t.action = .JOURNAL_OUT then s.shareBalance - t.qty
            else s.shareBalance, s.totalAcb⟩,
           { t with exchangeRate := rates t.currency t.date,
                    proceeds := 0, capitalGain := 0, acb := 0,
                    shareBalance :=
                      if t.action = .JOURNAL_IN then s.shareBalance + t.qty
                      else if t.action = .JOURNAL_OUT then s.shareBalance - t.qty
                      else s.shareBalance,
                    cumulativeCost := s.totalAcb }) := by
  have h2 : (t.addRate (rates t.currency t.date)).action.hasJournal = true := h
  unfold processTransaction
  rw [addTransaction_journal s (t.addRate (rates t.currency t.date)) h2]
  simp only [Tx.addRate]
  rw [isSuperficialLoss_journal]
  exact h

/-! ## C1 — the negative-balance check -/

/-- **C1, counterexample.**  A `JOURNAL_OUT` whose effect leaves the running
`share_balance` strictly negative is processed *successfully*: the journal
branch of `_add_transaction` returns before the negative-balance check, so no
`NegativeBalanceError` is raised and the run ends with `share_balance = -5`. -/
theorem c1_journal_out_negative_balance_unchecked :
    addTransactions "X" (fun _ _ => 1) [cxJOut] =
      .ok (⟨-5, 0⟩, [{ cxJOut with exchangeRate := 1, shareBalance := -5 }]) ∧
    (-5 : ℚ) < 0 := by
  refine ⟨?_, by norm_num⟩
  unfold addTransactions GState.init
  simp only [runTransactions]
  rw [processTransaction_journal "X" (fun _ _ => 1) ⟨0, 0⟩ [] cxJOut [] rfl]
  simp only [runTransactions]
  norm_num [cxJOut]
  decide

/-- **C1** (amended).  The negative-balance check applies only to `BUY`/`SELL`
transactions: for them, `_add_transaction` fails with `NegativeBalanceError`
exactly when the updated `share_balance` would be strictly negative (so any
`BUY`/`SELL` that is applied leaves `share_balance ≥ 0`); journal-flavoured
transactions (`JOURNAL_IN`/`JOURNAL_OUT`/generic `JOURNAL`) are applied
without the check, and in particular never raise it — a `JOURNAL_OUT` can
therefore leave the balance strictly negative (see the counterexample). -/
theorem c1_negative_balance_check_buy_sell_only (s : GState) (t : Tx) :
    (t.action.hasJournal = false →
      (addTransaction s t = .error .negativeBalance ↔
        (if t.action = .SELL then s.shareBalance - t.qty
         else s.shareBalance + t.qty) < 0)) ∧
    (t.action.hasJournal = false →
      ∀ s' t', addTransaction s t = .ok (s', t') → 0 ≤ s'.shareBalance) ∧
    (t.action.hasJournal = true →
      addTransaction s t ≠ .error .negativeBalance) := by
  refine ⟨fun h => ?_, fun h s' t' hok => ?_, fun h => ?_⟩
  · rcases action_of_not_journal h with ha | ha
    · rw [addTransaction_buy s t ha, ha]
      split <;> simp_all
    · rw [addTransaction_sell s t ha, ha]
      split <;> simp_all
  · rcases action_of_not_journal h with ha | ha
    · rw [addTransaction_buy s t ha] at hok
      split at hok
      · exact absurd hok (by simp)
      · rename_i hnn
        simp only [Except.ok.injEq, Prod.mk.injEq] at hok
        rw [← hok.1]
        simpa using not_lt.mp hnn
    · rw [addTransaction_sell s t ha] at hok
      split at hok
      · exact absurd hok (by simp)
      · rename_i hnn
        simp only [Except.ok.injEq, Prod.mk.injEq] at hok
        rw [← hok.1]
        simpa using not_lt.mp hnn
  · rw [addTransaction_journal s t h]
    simp

/-- Witness for C1 (amended): a `SELL` of 5 shares from a zero balance raises
`NegativeBalanceError`. -/
theorem c1_negative_balance_check_buy_sell_only_witness :
    addTransaction ⟨0, 0⟩ { cxJOut with action := .SELL } =
      .error .negativeBalance :=
  ((c1_negative_balance_check_buy_sell_only ⟨0, 0⟩
      { cxJOut with action := .SELL }).1 rfl).mpr (by norm_num [cxJOut])

/-! ## C3 — journal transactions preserve ACB -/

/-- A full loop iteration keeps the record's action. -/
theorem processTransaction_ok_action (ticker : String) (rates : String → Int → ℚ)
    (s : GState) (pre : List Tx) (t : Tx) (post : List Tx) (s' : GState) (t' : Tx)
    (h : processTransaction ticker rates s pre t post = .ok (s', t')) :
    t'.action = t.action := by
  unfold processTransaction at h
  split at h
  · exact absurd h (by simp)
  · rename_i s2t2 heq
    split at h
    · exact absurd h (by simp)
    · simp only [Except.ok.injEq, Prod.mk.injEq] at h
      have := addTransaction_ok_action s _ _ _ heq
      rw [← h.2]
      simpa [Tx.setSuperficialLoss] using this
    · simp only [Except.ok.injEq, Prod.mk.injEq] at h
      have := addTransaction_ok_action s _ _ _ heq
      rw [← h.2]
      exact this

/-- Over any successful run of the engine loop, every output record whose
action is `JOURNAL_IN` or `JOURNAL_OUT` has zero capital gain and zero ACB. -/
theorem runTransactions_journal_zero (ticker : String) (rates : String → Int → ℚ) :
    ∀ (ts : List Tx) (s : GState) (pre : List Tx) (sf : GState) (out : List Tx),
      runTransactions ticker rates s pre ts = .ok (sf, out) →
      ∀ u ∈ out, u.action = .JOURNAL_IN ∨ u.action = .JOURNAL_OUT →
        u.capitalGain = 0 ∧ u.acb = 0
  | [], s, pre, sf, out, hrun => by
    simp only [runTransactions, Except.ok.injEq, Prod.mk.injEq] at hrun
    rw [← hrun.2]
    intro u hu
    exact absurd hu (by simp)
  | t :: post, s, pre, sf, out, hrun => by
    rw [runTransactions] at hrun
    rcases hproc : processTransaction ticker rates s pre t post with e | st
    · rw [hproc] at hrun
      exact absurd hrun (by simp)
    · obtain ⟨s', t'⟩ := st
      rw [hproc] at hrun
      dsimp only at hrun
      rcases hrec : runTransactions ticker rates s' (pre ++ [t']) post with e | sfout
      · rw [hrec] at hrun
        exact absurd hrun (by simp)
      · obtain ⟨sf', out'⟩ := sfout
        rw [hrec] at hrun
        dsimp only at hrun
        simp only [Except.ok.injEq, Prod.mk.injEq] at hrun
        rw [← hrun.2]
        intro u hu hact
        rcases List.mem_cons.mp hu with hu | hu
        · subst hu
          have hta : t.action = .JOURNAL_IN ∨ t.action = .JOURNAL_OUT := by
            rw [← processTransaction_ok_action ticker rates s pre t post s' u hproc]
            exact hact
          have hj : t.action.hasJournal = true := by
            rcases hta with h | h <;> simp [Action.hasJournal, h]
          rw [processTransaction_journal ticker rates s pre t post hj] at hproc
          simp only [Except.ok.injEq, Prod.mk.injEq] at hproc
          rw [← hproc.2]
          exact ⟨rfl, rfl⟩
        · exact runTransactions_journal_zero ticker rates post s' (pre ++ [t']) sf' out' hrec u hu hact

/-- **C3.**  `JOURNAL_IN` increases `share_balance` by `qty` and `JOURNAL_OUT`
decreases it; both leave `total_acb` unchanged, set the record's `proceeds`,
`capital_gain` and `acb` to zero, and stamp `cumulative_cost` from the current
`total_acb`.  Consequently every `JOURNAL_IN`/`JOURNAL_OUT` record in the
output of `add_transactions` has `capital_gain = 0` and `acb = 0`. -/
theorem c3_journal_in_out_semantics :
    (∀ (s : GState) (t : Tx), t.action = .JOURNAL_IN →
      addTransaction s t =
        .ok (⟨s.shareBalance + t.qty, s.totalAcb⟩,
             { t with proceeds := 0, capitalGain := 0, acb := 0,
                      shareBalance := s.shareBalance + t.qty,
                      cumulativeCost := s.totalAcb })) ∧
    (∀ (s : GState) (t : Tx), t.action = .JOURNAL_OUT →
      addTransaction s t =
        .ok (⟨s.shareBalance - t.qty, s.totalAcb⟩,
             { t with proceeds := 0, capitalGain := 0, acb := 0,
                      shareBalance := s.shareBalance - t.qty,
                      cumulativeCost := s.totalAcb })) ∧
    (∀ (ticker : String) (rates : String → Int → ℚ) (ts : List Tx)
        (sf : GState) (out : List Tx),
      addTransactions ticker rates ts = .ok (sf, out) →
      ∀ u ∈ out, u.action = .JOURNAL_IN ∨ u.action = .JOURNAL_OUT →
        u.capitalGain = 0 ∧ u.acb = 0) := by
  refine ⟨fun s t h => ?_, fun s t h => ?_, fun ticker rates ts sf out hrun => ?_⟩
  · rw [addTransaction_journal s t (by simp [Action.hasJournal, h])]
    simp [h]
  · rw [addTransaction_journal s t (by simp [Action.hasJournal, h])]
    simp [h]
  · exact runTransactions_journal_zero ticker rates ts .init [] sf out hrun

/-- Witness for C3: a concrete `JOURNAL_IN` of 5 shares onto a balance of 3
shares with ACB 7. -/
theorem c3_journal_in_out_semantics_witness :
    addTransaction ⟨3, 7⟩ wJIn =
      .ok (⟨8, 7⟩,
           { wJIn with proceeds := 0, capitalGain := 0, acb := 0,
                       shareBalance := 8, cumulativeCost := 7 }) := by
  have h := c3_journal_in_out_semantics.1 ⟨3, 7⟩ wJIn rfl
  rw [h]
  norm_num [wJIn]

/-! ## C4 — SELL arithmetic -/

/-- **C4.**  Applying a `SELL` from state `(S, A)`: with
`acb_per_share = A / S` guarded to `0` when `S = 0`, the record is stamped
with `proceeds = qty × price × exchange_rate`, `acb = acb_per_share × qty`,
`capital_gain = proceeds − commission_in_cad − acb` (the record's `expenses`
is the CAD commission `commission × exchange_rate`), and the state becomes
`(S − qty, A − acb_per_share × qty)`. -/
theorem c4_sell_arithmetic (s : GState) (t : Tx) (s' : GState) (t' : Tx)
    (hact : t.action = .SELL) (h : addTransaction s t = .ok (s', t')) :
    t'.proceeds = t.qty * t.price * t.exchangeRate ∧
    t'.acb = (if s.shareBalance = 0 then 0 else s.totalAcb / s.shareBalance) * t.qty ∧
    t'.capitalGain = t'.proceeds - t.commission * t.exchangeRate - t'.acb ∧
    s'.totalAcb = s.totalAcb -
      (if s.shareBalance = 0 then 0 else s.totalAcb / s.shareBalance) * t.qty ∧
    s'.shareBalance = s.shareBalance - t.qty := by
  rw [addTransaction_sell s t hact] at h
  split at h
  · exact absurd h (by simp)
  · simp only [Except.ok.injEq, Prod.mk.injEq] at h
    rw [← h.1, ← h.2]
    refine ⟨rfl, ?_, ?_, ?_, rfl⟩ <;> simp [acbPerShare, Tx.expenses]

/-- Witness for C4 at the concrete `wSell` run. -/
theorem c4_sell_arithmetic_witness :
    wSellOut.proceeds = wSell.qty * wSell.price * wSell.exchangeRate ∧
    wSellOut.acb = (if (10 : ℚ) = 0 then 0 else 102 / 10) * wSell.qty ∧
    wSellOut.capitalGain = wSellOut.proceeds - wSell.commission * wSell.exchangeRate -
      wSellOut.acb ∧
    (0 : ℚ) = 102 - (if (10 : ℚ) = 0 then 0 else 102 / 10) * wSell.qty ∧
    (0 : ℚ) = 10 - wSell.qty := by
  have h : addTransaction ⟨10, 102⟩ wSell = .ok (⟨0, 0⟩, wSellOut) := by
    rw [addTransaction_sell ⟨10, 102⟩ wSell rfl]
    rw [if_neg (by norm_num [wSell])]
    norm_num [wSell, wSellOut, acbPerShare, Tx.expenses]
  exact c4_sell_arithmetic ⟨10, 102⟩ wSell ⟨0, 0⟩ wSellOut rfl h

/-! ## C7 — rate-table construction validation -/

/-- **C7.**  Constructing a rate table with `end_date < start_date`, or with
`start_date` strictly before the minimum supported date 2017-01-03, fails
immediately with the corresponding configuration error — and the outcome is
identical for *every* provider oracle, i.e. the failure happens before any
interaction with the external rate provider. -/
theorem c7_invalid_range_fails_before_fetch
    (fetch fetch' : String → Int → Int → List (Int × ℚ)) (c : String)
    (s e : Int) (h : e < s ∨ s < minDate) :
    exchangeRateInit fetch c s e =
      .error (if e < s then .endBeforeStart else .startBeforeMin) ∧
    exchangeRateInit fetch c s e = exchangeRateInit fetch' c s e := by
  unfold exchangeRateInit
  by_cases h1 : e < s
  · simp [h1]
  · rcases h with h | h
    · exact absurd h h1
    · simp [h1, h]

/-- Witness for C7: a start date one day before the minimum supported date. -/
theorem c7_invalid_range_fails_before_fetch_witness :
    exchangeRateInit (fun _ _ _ => []) "USD" (minDate - 1) minDate =
      .error .startBeforeMin := by
  have h := (c7_invalid_range_fails_before_fetch (fun _ _ _ => [])
    (fun _ _ _ => [(0, 1)]) "USD" (minDate - 1) minDate
    (Or.inr (by omega))).1
  rw [if_neg (by omega)] at h
  exact h

/-! ## C10 — a surviving generic JOURNAL is a silent no-op -/

/-- **C10.**  Journal reconciliation can leave a generic `JOURNAL` unresolved:
in the 2-element same-`(date, qty)` group `[cxPairIn, cxPairGen]` — one entry
already tagged `JOURNAL_IN`, one generic — the constructor's reconciliation
pass leaves the generic entry untouched.  And when such a transaction reaches
the engine, `_add_transaction` applies it as a silent no-op: the state is
returned unchanged and the record is stamped with zero
`proceeds`/`capital_gain`/`acb`, the unchanged `share_balance`, and
`cumulative_cost` from the unchanged `total_acb`. -/
theorem c10_generic_journal_is_noop :
    (mkTransactions [cxPairIn, cxPairGen] [0, 1]).1 = [cxPairIn, cxPairGen] ∧
    ∀ (s : GState) (t : Tx), t.action = .JOURNAL →
      addTransaction s t =
        .ok (s, { t with proceeds := 0, capitalGain := 0, acb := 0,
                         shareBalance := s.shareBalance,
                         cumulativeCost := s.totalAcb }) := by
  constructor
  · decide
  · intro s t h
    rw [addTransaction_journal s t (by simp [Action.hasJournal, h])]
    simp [h]

/-- Witness for C10: the no-op on a concrete state and generic journal
record. -/
theorem c10_generic_journal_is_noop_witness :
    addTransaction ⟨9, 17⟩ cxPairGen =
      .ok (⟨9, 17⟩, { cxPairGen with proceeds := 0, capitalGain := 0, acb := 0,
                                     shareBalance := 9, cumulativeCost := 17 }) := by
  have h := c10_generic_journal_is_noop.2 ⟨9, 17⟩ cxPairGen rfl
  rw [h]

/-! ## C5 / C6 — the rate lookup -/

/-- A successful `List.lookup` finds a stored pair. -/
theorem mem_of_lookup_eq_some :
    ∀ (l : List (Int × ℚ)) (k : Int) (v : ℚ), l.lookup k = some v → (k, v) ∈ l
  | [], k, v, h => by simp [List.lookup] at h
  | (k', v') :: ps, k, v, h => by
    rw [List.lookup] at h
    cases hbe : (k == k')
    · rw [hbe] at h
      dsimp only at h
      exact List.mem_cons_of_mem _ (mem_of_lookup_eq_some ps k v h)
    · rw [hbe] at h
      dsimp only at h
      have hk : k = k' := by simpa using hbe
      have hv : v' = v := by simpa using h
      rw [hk, ← hv]
      exact List.mem_cons_self _ _

/-- `List.lookup` misses exactly the keys not stored. -/
theorem lookup_eq_none_iff (k : Int) :
    ∀ (l : List (Int × ℚ)), l.lookup k = none ↔ k ∉ l.map Prod.fst
  | [] => by simp [List.lookup]
  | (k', v') :: ps => by
    by_cases hk : k = k'
    · subst hk
      simp [List.lookup]
    · have hbe : (k == k') = false := by simpa using hk
      rw [List.lookup, hbe]
      dsimp only
      simp [lookup_eq_none_iff k ps, hk]

/-- With duplicate-free keys, membership determines the lookup. -/
theorem lookup_of_mem_nodup :
    ∀ (l : List (Int × ℚ)), (l.map Prod.fst).Nodup →
      ∀ (k : Int) (v : ℚ), (k, v) ∈ l → l.lookup k = some v
  | [], _, k, v, h => absurd h (by simp)
  | (k', v') :: ps, hnd, k, v, h => by
    rw [List.lookup]
    rcases List.mem_cons.mp h with h | h
    · cases h
      simp
    · have hk : (k == k') = false := by
        simp only [beq_eq_false_iff_ne, ne_eq]
        intro he
        exact (List.nodup_cons.mp (by simpa using hnd)).1
          (he ▸ List.mem_map_of_mem Prod.fst h)
      rw [hk]
      dsimp only
      exact lookup_of_mem_nodup ps (List.nodup_cons.mp (by simpa using hnd)).2 k v h

/-- With duplicate-free keys, a key determines its stored rate. -/
theorem rate_unique_of_nodup (l : List (Int × ℚ)) (hnd : (l.map Prod.fst).Nodup)
    (k : Int) (a b : ℚ) (ha : (k, a) ∈ l) (hb : (k, b) ∈ l) : a = b := by
  have h1 := lookup_of_mem_nodup l hnd k a ha
  have h2 := lookup_of_mem_nodup l hnd k b hb
  rw [h1] at h2
  exact Option.some.inj h2

/-- Python's `min(dates, key := |· − target|)` over dates all strictly before
the target computes their maximum (the closest preceding date): the fold
result is an element of the list and bounds it from above. -/
theorem pyFold_max (d : Int) :
    ∀ (l : List Int) (a : Int), a < d → (∀ x ∈ l, x < d) →
      ((l.foldl (fun m y => if |y - d| < |m - d| then y else m) a) ∈ a :: l ∧
       ∀ x ∈ a :: l, x ≤ l.foldl (fun m y => if |y - d| < |m - d| then y else m) a)
  | [], a, _, _ => by simp
  | y :: ys, a, ha, hl => by
    have hy : y < d := hl y (List.mem_cons_self y ys)
    have hys : ∀ x ∈ ys, x < d := fun x hx => hl x (List.mem_cons_of_mem y hx)
    rw [List.foldl_cons]
    have hstep : (if |y - d| < |a - d| then y else a) = if a < y then y else a := by
      rw [abs_of_neg (by omega : y - d < 0), abs_of_neg (by omega : a - d < 0)]
      exact if_congr (by omega) rfl rfl
    rw [hstep]
    by_cases hc : a < y
    · rw [if_pos hc]
      obtain ⟨hmem, hge⟩ := pyFold_max d ys y hy hys
      refine ⟨List.mem_cons_of_mem a hmem, ?_⟩
      intro x hx
      rcases List.mem_cons.mp hx with rfl | hx
      · exact le_trans (le_of_lt hc) (hge y (List.mem_cons_self y ys))
      · exact hge x hx
    · rw [if_neg hc]
      obtain ⟨hmem, hge⟩ := pyFold_max d ys a ha hys
      constructor
      · rcases List.mem_cons.mp hmem with h | h
        · exact List.mem_cons.mpr (Or.inl h)
        · exact List.mem_cons_of_mem a (List.mem_cons_of_mem y h)
      · intro x hx
        rcases List.mem_cons.mp hx with rfl | hx
        · exact hge x (List.mem_cons_self x ys)
        · rcases List.mem_cons.mp hx with rfl | hx
          · exact le_trans (not_lt.mp hc) (hge a (List.mem_cons_self a ys))
          · exact hge x (List.mem_cons_of_mem a hx)

/-- Case analysis of `_get_closest_rate_for_day` for a query strictly after
the minimum date: either no stored date is on or before `d` and Python's
`min` raises `ValueError`, or the greatest stored date `k ≤ d` is selected
and its rate returned. -/
theorem getClosestRateForDay_spec (rates : List (Int × ℚ)) (d : Int)
    (hnd : (rates.map Prod.fst).Nodup) (hd : minDate < d) :
    (getClosestRateForDay rates d = .error .valueErr ∧ ∀ p ∈ rates, d < p.1) ∨
    (∃ k r, (k, r) ∈ rates ∧ k ≤ d ∧ (∀ p ∈ rates, p.1 ≤ d → p.1 ≤ k) ∧
      getClosestRateForDay rates d = .ok (some r)) := by
  unfold getClosestRateForDay
  rw [if_neg (by omega)]
  cases hlk : rates.lookup d with
  | some r =>
    right
    exact ⟨d, r, mem_of_lookup_eq_some rates d r hlk, le_refl d,
      fun p _ h => h, rfl⟩
  | none =>
    cases hp : (rates.map Prod.fst).filter (fun x => decide (x < d)) with
    | nil =>
      left
      constructor
      · rfl
      · intro p hp'
        have h1 : p.1 ≠ d := by
          intro he
          exact (lookup_eq_none_iff d rates).mp hlk
            (he ▸ List.mem_map_of_mem Prod.fst hp')
        have h2 : ¬ p.1 < d := by
          intro hlt
          have hmemf : p.1 ∈ (rates.map Prod.fst).filter (fun x => decide (x < d)) :=
            List.mem_filter.mpr ⟨List.mem_map_of_mem Prod.fst hp', by simpa using hlt⟩
          rw [hp] at hmemf
          exact absurd hmemf (by simp)
        omega
    | cons a as =>
      right
      have hlt : ∀ x ∈ a :: as, x < d := by
        intro x hx
        rw [← hp] at hx
        simpa using (List.mem_filter.mp hx).2
      obtain ⟨hmem, hge⟩ := pyFold_max d as a (hlt a (List.mem_cons_self a as))
        (fun x hx => hlt x (List.mem_cons_of_mem a hx))
      have hmkeys : (as.foldl (fun m y => if |y - d| < |m - d| then y else m) a)
          ∈ rates.map Prod.fst := by
        have hmm := hmem
        rw [← hp] at hmm
        exact (List.mem_filter.mp hmm).1
      obtain ⟨p0, hp0, hpe⟩ := List.mem_map.mp hmkeys
      refine ⟨p0.1, p0.2, by simpa using hp0, ?_, ?_, ?_⟩
      · rw [hpe]
        exact le_of_lt (hlt _ hmem)
      · intro p hp' hple
        have hne : p.1 ≠ d := by
          intro he
          exact (lookup_eq_none_iff d rates).mp hlk
            (he ▸ List.mem_map_of_mem Prod.fst hp')
        have hmemf : p.1 ∈ a :: as := by
          rw [← hp]
          exact List.mem_filter.mpr
            ⟨List.mem_map_of_mem Prod.fst hp', by simp; omega⟩
        rw [hpe]
        exact hge p.1 hmemf
      · dsimp only
        rw [pyMinBy]
        dsimp only
        rw [← hpe, lookup_of_mem_nodup rates hnd p0.1 p0.2 (by simpa using hp0)]

/-- The table with a single observation carrying the (falsy) rate `0`. -/
def cxZeroTable : List (Int × ℚ) := [(minDate + 1, 0)]

/-- **C5, counterexample.**  A known rate date lies on (not merely before) the
query date `minDate + 1 > minDate`, yet `get_rate` fails: the stored rate `0`
trips the Python falsiness guard `if not rate:`, so the claimed
"fails iff no rate on or before the date / date at or before the minimum"
equivalence is violated. -/
theorem c5_zero_rate_fails_despite_available_rate :
    getRate cxZeroTable (minDate + 1) = .error .rateNotFound ∧
    (minDate + 1, (0 : ℚ)) ∈ cxZeroTable ∧ minDate < minDate + 1 := by
  refine ⟨?_, by simp [cxZeroTable], by omega⟩
  unfold getRate getClosestRateForDay cxZeroTable
  rw [if_neg (by omega)]
  rw [show List.lookup (minDate + 1) [(minDate + 1, (0 : ℚ))] = some 0 from by
    simp [List.lookup]]
  simp

/-- **C5** (amended).  With duplicate-free stored dates: `get_rate(d)` fails
with `RateNotFound` iff `d` is at or before the minimum supported date, or the
entry the lookup selects (the greatest stored date `≤ d`) carries the rate `0`
(the Python guard `if not rate:` treats a `0.0` rate as absent); and it fails
with an uncaught `ValueError` (from `min` over an empty sequence, not
`RateNotFound`) iff `d` is after the minimum date and every stored date is
strictly after `d` — i.e. no rate lies on or before `d`.  In all other cases a
rate is returned. -/
theorem c5_get_rate_failure_characterization (rates : List (Int × ℚ)) (d : Int)
    (hnd : (rates.map Prod.fst).Nodup) :
    (getRate rates d = .error .rateNotFound ↔
      (d ≤ minDate ∨
       ∃ k, (k, (0 : ℚ)) ∈ rates ∧ k ≤ d ∧ ∀ p ∈ rates, p.1 ≤ d → p.1 ≤ k)) ∧
    (getRate rates d = .error .valueErr ↔
      (minDate < d ∧ ∀ p ∈ rates, d < p.1)) := by
  by_cases hd : d ≤ minDate
  · have hres : getRate rates d = .error .rateNotFound := by
      unfold getRate getClosestRateForDay
      rw [if_pos hd]
    rw [hres]
    constructor
    · exact ⟨fun _ => Or.inl hd, fun _ => rfl⟩
    · constructor
      · intro h
        exact absurd h (by simp)
      · intro h
        omega
  · push_neg at hd
    rcases getClosestRateForDay_spec rates d hnd hd with ⟨hres, hall⟩ | ⟨k, r, hmem, hkd, hdom, hres⟩
    · have hgr : getRate rates d = .error .valueErr := by
        unfold getRate
        rw [hres]
      rw [hgr]
      constructor
      · constructor
        · intro h
          exact absurd h (by simp)
        · rintro (⟨⟩ | ⟨k, hk, hkd, -⟩)
          · omega
          · exact absurd hkd (by have := hall _ hk; omega)
      · exact ⟨fun _ => ⟨hd, hall⟩, fun _ => rfl⟩
    · have hgr : getRate rates d =
          if r = 0 then .error .rateNotFound else .ok r := by
        unfold getRate
        rw [hres]
      constructor
      · constructor
        · intro h
          rw [hgr] at h
          by_cases hr : r = 0
          · exact Or.inr ⟨k, hr ▸ hmem, hkd, hdom⟩
          · rw [if_neg hr] at h
            exact absurd h (by simp)
        · rintro (h | ⟨k', hk', hkd', hdom'⟩)
          · omega
          · have hkk : k = k' := le_antisymm (hdom' (k, r) hmem hkd) (hdom (k', 0) hk' hkd')
            have hr0 : r = 0 := rate_unique_of_nodup rates hnd k r 0 hmem (hkk ▸ hk')
            rw [hgr, if_pos hr0]
      · constructor
        · intro h
          rw [hgr] at h
          by_cases hr : r = 0
          · rw [if_pos hr] at h
            exact absurd h (by simp)
          · rw [if_neg hr] at h
            exact absurd h (by simp)
        · rintro ⟨-, hall⟩
          exact absurd hkd (by have := hall _ hmem; omega)

/-- Witness for C5 (amended): a query at the minimum supported date fails with
`RateNotFound` even though the table holds a (later) rate. -/
theorem c5_get_rate_failure_characterization_witness :
    getRate [(minDate + 1, (5 : ℚ))] minDate = .error .rateNotFound :=
  (c5_get_rate_failure_characterization [(minDate + 1, 5)] minDate
    (by simp)).1.mpr (Or.inl le_rfl)

/-- **C6, counterexample.**  A rate table over the single observation date
`minDate + 1` (strictly after the minimum supported date) queried exactly on
that date does *not* return the stored rate when that rate is `0`: the falsy
guard in `get_rate` raises instead, so the claimed exact-hit behaviour fails
without a nonzero-rate proviso. -/
theorem c6_zero_rate_defeats_exact_hit :
    (minDate + 1, (0 : ℚ)) ∈ cxZeroTable ∧
    minDate < minDate + 1 ∧
    getRate cxZeroTable (minDate + 1) ≠ .ok 0 := by
  refine ⟨by simp [cxZeroTable], by omega, ?_⟩
  unfold getRate getClosestRateForDay cxZeroTable
  rw [if_neg (by omega)]
  rw [show List.lookup (minDate + 1) [(minDate + 1, (0 : ℚ))] = some 0 from by
    simp [List.lookup]]
  simp

/-- **C6** (amended).  For a table over duplicate-free observation dates with
*nonzero* stored rates, and a query `d` strictly after the minimum supported
date: if `(di, ri)` is stored with `di ≤ d` and no stored date lies in the
half-open interval `(di, d]` — which covers both the exact-hit case `d = di`
and `d` strictly between `di` and the next observation — then `get_rate(d)`
returns `ri`; moreover whatever rate `get_rate` returns is stored at a date on
or before `d`, never after. -/
theorem c6_closest_preceding_rate (rates : List (Int × ℚ)) (d di : Int) (ri : ℚ)
    (hnd : (rates.map Prod.fst).Nodup)
    (hnz : ∀ p ∈ rates, p.2 ≠ 0)
    (hd : minDate < d)
    (hmem : (di, ri) ∈ rates)
    (hle : di ≤ d)
    (hgap : ∀ p ∈ rates, p.1 ≤ di ∨ d < p.1) :
    getRate rates d = .ok ri ∧
    ∀ r, getRate rates d = .ok r → ∃ p ∈ rates, p.1 ≤ d ∧ p.2 = r := by
  rcases getClosestRateForDay_spec rates d hnd hd with ⟨hres, hall⟩ | ⟨k, r, hmem', hkd, hdom, hres⟩
  · exact absurd hle (by have := hall _ hmem; omega)
  · have hkk : k = di := by
      have h1 : di ≤ k := hdom (di, ri) hmem hle
      have h2 : k ≤ di := by
        rcases hgap (k, r) hmem' with h | h
        · exact h
        · omega
      omega
    have hrr : r = ri := rate_unique_of_nodup rates hnd di r ri (hkk ▸ hmem') hmem
    have hok : getRate rates d = .ok ri := by
      unfold getRate
      rw [hres]
      dsimp only
      rw [hrr, if_neg (show ¬ (ri = 0) from by simpa using hnz _ hmem)]
    refine ⟨hok, ?_⟩
    intro r' hr'
    rw [hok] at hr'
    exact ⟨(di, ri), hmem, hle, by simpa using Except.ok.inj hr'⟩

/-- Witness for C6 (amended): a two-observation table, queried strictly
between the two dates, returns the earlier (closest preceding) rate. -/
theorem c6_closest_preceding_rate_witness :
    getRate [(minDate + 1, (5 : ℚ)), (minDate + 3, 7)] (minDate + 4) = .ok 7 :=
  (c6_closest_preceding_rate [(minDate + 1, 5), (minDate + 3, 7)]
    (minDate + 4) (minDate + 3) 7
    (by decide)
    (by decide)
    (by omega)
    (by decide)
    (by omega)
    (by decide)).1

/-! ## C2 — the superficial-loss rule -/

/-- An `.ok` engine step keeps every input field of the record that the
superficial-loss test reads (`date`, `ticker`, `qty`, `action`) as well as the
`superficial_loss` flag. -/
theorem addTransaction_ok_fields (s : GState) (t : Tx) (s' : GState) (t' : Tx)
    (h : addTransaction s t = .ok (s', t')) :
    t'.date = t.date ∧ t'.ticker = t.ticker ∧ t'.qty = t.qty ∧
    t'.action = t.action ∧ t'.superficialLoss = t.superficialLoss := by
  cases hj : t.action.hasJournal
  · rcases action_of_not_journal hj with ha | ha
    · rw [addTransaction_buy s t ha] at h
      split at h
      · exact absurd h (by simp)
      · simp only [Except.ok.injEq, Prod.mk.injEq] at h
        rw [← h.2]
        exact ⟨rfl, rfl, rfl, rfl, rfl⟩
    · rw [addTransaction_sell s t ha] at h
      split at h
      · exact absurd h (by simp)
      · simp only [Except.ok.injEq, Prod.mk.injEq] at h
        rw [← h.2]
        exact ⟨rfl, rfl, rfl, rfl, rfl⟩
  · rw [addTransaction_journal s t hj] at h
    simp only [Except.ok.injEq, Prod.mk.injEq] at h
    rw [← h.2]
    exact ⟨rfl, rfl, rfl, rfl, rfl⟩

/-- The `BUY`-in-window test of `_is_superficial_loss` matches the existence
of a same-ticker `BUY` dated within the window in the full list. -/
theorem any_buy_in_window (l : List Tx) (ticker : String) (lo hi : Int) :
    (l.filter (windowFilter ticker lo hi)).any (fun u => u.action = .BUY) = true ↔
      ∃ u ∈ l, u.ticker = ticker ∧ lo ≤ u.date ∧ u.date ≤ hi ∧ u.action = .BUY := by
  rw [List.any_eq_true]
  constructor
  · rintro ⟨u, hu, hb⟩
    obtain ⟨hul, hw⟩ := List.mem_filter.mp hu
    simp only [windowFilter, Bool.and_eq_true, beq_iff_eq, decide_eq_true_eq] at hw
    exact ⟨u, hul, hw.1.1, hw.1.2, hw.2, by simpa using hb⟩
  · rintro ⟨u, hul, ht, h1, h2, hb⟩
    refine ⟨u, List.mem_filter.mpr ⟨hul, ?_⟩, by simpa using hb⟩
    simp only [windowFilter, Bool.and_eq_true, beq_iff_eq, decide_eq_true_eq]
    exact ⟨⟨ht, h1⟩, h2⟩

/-- **C2.**  One engine-loop iteration on the candidate at position
`pre / t / post` of the full passed-in list.  For a non-journal transaction
whose stamped `capital_gain` is negative: the record is marked
`superficial_loss = true` *and* the (negative) `capital_gain` is subtracted
back into `total_acb` if and only if (1) some same-ticker transaction of the
full list dated within `[t.date − 30, t.date + 30]` is a `BUY`, and (2) the
balance obtained from the candidate's stamped `share_balance` by applying
`−qty` for SELL, `+qty` for BUY, `+qty` for JOURNAL_IN and `−qty` for
JOURNAL_OUT over the subsequent window-filtered transactions is strictly
positive.  Journal-flavoured transactions are never marked. -/
theorem c2_superficial_loss_characterization
    (ticker : String) (rates : String → Int → ℚ) (s : GState)
    (pre post : List Tx) (t : Tx) :
    (∀ (s2 : GState) (t2 : Tx),
      t.ticker = ticker →
      t.action.hasJournal = false →
      addTransaction s (t.addRate (rates t.currency t.date)) = .ok (s2, t2) →
      t2.capitalGain < 0 →
      ∃ s' t', processTransaction ticker rates s pre t post = .ok (s', t') ∧
        ((t'.superficialLoss = true ∧ t' = t2.setSuperficialLoss ∧
          s' = { s2 with totalAcb := s2.totalAcb - t2.capitalGain }) ↔
         ((∃ u ∈ pre ++ t2 :: post, u.ticker = ticker ∧
             t.date - 30 ≤ u.date ∧ u.date ≤ t.date + 30 ∧ u.action = .BUY) ∧
          0 < (post.filter
            (windowFilter ticker (t.date - 30) (t.date + 30))).foldl
              stepBalance t2.shareBalance))) ∧
    (t.action.hasJournal = true →
      ∃ s' t', processTransaction ticker rates s pre t post = .ok (s', t') ∧
        t'.superficialLoss = t.superficialLoss) := by
  constructor
  · intro s2 t2 htick hnj hstep hneg
    obtain ⟨hdate, hticker, -, haction, hsup⟩ :=
      addTransaction_ok_fields s (t.addRate (rates t.currency t.date)) s2 t2 hstep
    simp only [Tx.addRate] at hdate hticker haction hsup
    have ht2nj : t2.action.hasJournal = false := by rw [haction]; exact hnj
    have hsl : isSuperficialLoss ticker t2 pre post =
        if ((pre ++ t2 :: post).filter
            (windowFilter ticker (t2.date - 30) (t2.date + 30))).any
              (fun u => u.action = .BUY) then
          .ok (decide (0 < (post.filter
            (windowFilter ticker (t2.date - 30) (t2.date + 30))).foldl
              stepBalance t2.shareBalance))
        else .ok false := by
      unfold isSuperficialLoss
      rw [if_neg (by rw [ht2nj]; simp), if_neg (not_le.mpr hneg)]
      by_cases hany : ((pre ++ t2 :: post).filter
          (windowFilter ticker (t2.date - 30) (t2.date + 30))).any
            (fun u => u.action = .BUY) = true
      · rw [if_neg (by rw [hany]; simp), if_pos ?wf, if_pos hany]
        case wf =>
          simp only [windowFilter, Bool.and_eq_true, beq_iff_eq, decide_eq_true_eq]
          exact ⟨⟨by rw [hticker, htick], by omega⟩, by omega⟩
      · rw [if_pos (by simpa using hany), if_neg (by simpa using hany)]
    unfold processTransaction
    rw [hstep]
    dsimp only
    rw [hsl]
    by_cases hany : ((pre ++ t2 :: post).filter
        (windowFilter ticker (t2.date - 30) (t2.date + 30))).any
          (fun u => u.action = .BUY) = true
    · rw [if_pos hany]
      by_cases hbal : 0 < (post.filter
          (windowFilter ticker (t2.date - 30) (t2.date + 30))).foldl
            stepBalance t2.shareBalance
      · rw [decide_eq_true hbal]
        refine ⟨_, _, rfl, ?_⟩
        constructor
        · intro _
          refine ⟨?_, ?_⟩
          · rw [hdate] at hany
            exact (any_buy_in_window _ ticker _ _).mp hany
          · rw [hdate] at hbal
            exact hbal
        · intro _
          exact ⟨rfl, rfl, rfl⟩
      · rw [decide_eq_false hbal]
        refine ⟨_, _, rfl, ?_⟩
        constructor
        · rintro ⟨-, -, hs'⟩
          have : s2.totalAcb = s2.totalAcb - t2.capitalGain := congrArg GState.totalAcb hs'
          exact absurd this (by intro h; apply hneg.ne; linarith)
        · rintro ⟨-, hb⟩
          rw [← hdate] at hb
          exact absurd hb hbal
    · rw [if_neg hany]
      refine ⟨_, _, rfl, ?_⟩
      constructor
      · rintro ⟨-, -, hs'⟩
        have : s2.totalAcb = s2.totalAcb - t2.capitalGain := congrArg GState.totalAcb hs'
        exact absurd this (by intro h; apply hneg.ne; linarith)
      · rintro ⟨hex, -⟩
        rw [← hdate] at hex
        exact absurd ((any_buy_in_window _ ticker _ _).mpr hex) hany
  · intro hj
    exact ⟨_, _, processTransaction_journal ticker rates s pre t post hj, rfl⟩

/-- Witness for C2: the loss-making `wSell` followed (15 days later, inside
the window) by a same-ticker `BUY` restoring a positive balance is marked
superficial and its loss is added back into `total_acb`
(`0 − (−44) = 44`). -/
theorem c2_superficial_loss_characterization_witness :
    processTransaction "X" (fun _ _ => 2) ⟨10, 102⟩ [] wSell [wBuyLater] =
      .ok ({ shareBalance := 0, totalAcb := 44 }, wSellOut.setSuperficialLoss) := by
  have hstep : addTransaction ⟨10, 102⟩ (wSell.addRate 2) = .ok (⟨0, 0⟩, wSellOut) := by
    rw [show wSell.addRate 2 = wSell from rfl]
    rw [addTransaction_sell ⟨10, 102⟩ wSell rfl]
    rw [if_neg (by norm_num [wSell])]
    norm_num [wSell, wSellOut, acbPerShare, Tx.expenses]
  obtain ⟨s', t', heq, hiff⟩ :=
    (c2_superficial_loss_characterization "X" (fun _ _ => 2) ⟨10, 102⟩ []
      [wBuyLater] wSell).1 ⟨0, 0⟩ wSellOut rfl rfl hstep (by norm_num [wSellOut])
  obtain ⟨-, ht', hs'⟩ := hiff.mpr
    ⟨⟨wBuyLater, List.mem_cons_of_mem _ (List.mem_cons_self _ _), rfl,
      by norm_num [wBuyLater, wSell], by norm_num [wBuyLater, wSell], rfl⟩,
     by norm_num [windowFilter, stepBalance, wSell, wSellOut, wBuyLater]; decide⟩
  rw [heq, ht', hs']
  norm_num [wSellOut]

/-! ## Heap primitives for the ledger model -/

theorem getTx_setTx_same (h : List Tx) (i : Nat) (v : Tx) (hi : i < h.length) :
    getTx (setTx h i v) i = v := by
  unfold getTx setTx
  rw [List.getD_eq_getElem?_getD, List.getElem?_set_self hi]
  rfl

theorem getTx_setTx_ne (h : List Tx) (i j : Nat) (v : Tx) (hij : i ≠ j) :
    getTx (setTx h i v) j = getTx h j := by
  unfold getTx setTx
  rw [List.getD_eq_getElem?_getD, List.getD_eq_getElem?_getD,
    List.getElem?_set_ne hij]

theorem setTx_length (h : List Tx) (i : Nat) (v : Tx) :
    (setTx h i v).length = h.length := by
  unfold setTx
  exact List.length_set h i v

theorem getTx_oob (h : List Tx) (i : Nat) (hi : h.length ≤ i) :
    getTx h i = default := by
  unfold getTx
  rw [List.getD_eq_getElem?_getD, List.getElem?_eq_none hi]
  rfl

theorem setTx_oob (h : List Tx) (i : Nat) (v : Tx) (hi : h.length ≤ i) :
    setTx h i v = h := by
  unfold setTx
  exact List.set_eq_of_length_le hi

/-- A generic `JOURNAL` can only be read from an in-range heap index (the
out-of-range default record is a `BUY`). -/
theorem journal_action_in_range (h : List Tx) (i : Nat)
    (hj : (getTx h i).action = .JOURNAL) : i < h.length := by
  by_contra hc
  rw [getTx_oob h i (le_of_not_lt hc)] at hj
  exact absurd hj (by decide)

/-- Pointwise extensionality for heaps. -/
theorem heap_ext (h₁ h₂ : List Tx) (hlen : h₁.length = h₂.length)
    (hp : ∀ i, getTx h₁ i = getTx h₂ i) : h₁ = h₂ := by
  apply List.ext_getElem hlen
  intro i hi1 hi2
  have h := hp i
  unfold getTx at h
  rw [List.getD_eq_getElem?_getD, List.getD_eq_getElem?_getD,
    List.getElem?_eq_getElem hi1, List.getElem?_eq_getElem hi2] at h
  simpa using h

/-! ## C8 — `filter_by` and the original ledger -/

/-- The per-object resolution step is the identity on a non-generic action. -/
theorem resolveTx_noop (t : Tx) (h : t.action ≠ .JOURNAL) : resolveTx t = t := by
  unfold resolveTx
  rw [if_neg h]

theorem resolveAt_noop (h : List Tx) (i : Nat)
    (hi : (getTx h i).action ≠ .JOURNAL) : resolveAt h i = h := by
  unfold resolveAt
  rw [resolveTx_noop _ hi]
  by_cases hlt : i < h.length
  · unfold getTx setTx
    apply List.ext_getElem (by simp)
    intro n hn1 hn2
    by_cases hni : n = i
    · subst hni
      rw [List.getElem_set_self]
      rw [List.getD_eq_getElem?_getD, List.getElem?_eq_getElem hlt]
      rfl
    · rw [List.getElem_set_ne (fun he => hni he.symm)]
  · exact setTx_oob h i _ (le_of_not_lt hlt)

theorem foldl_resolveAt_noop (h : List Tx) :
    ∀ (g : List Nat), (∀ i ∈ g, (getTx h i).action ≠ .JOURNAL) →
      g.foldl resolveAt h = h
  | [], _ => rfl
  | i :: is, hng => by
    rw [List.foldl_cons, resolveAt_noop h i (hng i (List.mem_cons_self i is))]
    exact foldl_resolveAt_noop h is (fun j hj => hng j (List.mem_cons_of_mem i hj))

/-- A group with no generic `JOURNAL` member is left untouched by
`processGroup`: the 2-element branches assign only within all-generic groups,
and the per-object branches are guarded on a generic action. -/
theorem processGroup_noop (h : List Tx) (g : List Nat)
    (hng : ∀ i ∈ g, (getTx h i).action ≠ .JOURNAL) : processGroup h g = h := by
  unfold processGroup
  by_cases hlen : g.length = 2
  · rw [if_pos hlen]
    by_cases hio : ((g.map (fun i => (getTx h i).action)).contains Action.JOURNAL_IN &&
        (g.map (fun i => (getTx h i).action)).contains Action.JOURNAL_OUT) = true
    · rw [if_pos hio]
    · rw [if_neg hio, if_neg ?notall]
      case notall =>
        intro hall
        rcases g with - | ⟨i0, g'⟩
        · simp at hlen
        · exact hng i0 (List.mem_cons_self i0 g')
            (of_decide_eq_true ((List.all_eq_true.mp hall) i0 (List.mem_cons_self i0 g')))
  · rw [if_neg hlen]
    exact foldl_resolveAt_noop h g hng

/-- `match_journal_transactions` is the identity on a ledger holding no
generic `JOURNAL` transaction. -/
theorem matchJournal_noop (h : List Tx) (ids : List Nat)
    (hng : ∀ i ∈ ids, (getTx h i).action ≠ .JOURNAL) :
    matchJournalTransactions h ids = h := by
  unfold matchJournalTransactions
  dsimp only
  have hj : ∀ i ∈ journalIds h ids, (getTx h i).action ≠ .JOURNAL := by
    intro i hi
    exact hng i (List.mem_of_mem_filter hi)
  generalize groupKeysList h (journalIds h ids) = keys
  induction keys with
  | nil => rfl
  | cons k ks ih =>
    rw [List.foldl_cons,
      processGroup_noop h _ (fun i hi => hj i (List.mem_of_mem_filter hi))]
    exact ih

/-- **C8, counterexample.**  Construct a ledger over the heap
`[cxPairIn, cxPairGen]` (reconciliation leaves it unchanged, entry 1 still
the generic `JOURNAL`), then call `filter_by(action = JOURNAL)` on it: the new
ledger's constructor re-runs journal reconciliation over the *shared*
transaction objects and reassigns entry 1's action to `JOURNAL_IN` (currency
heuristic, CAD ⇒ IN) — so the original ledger's transaction 1 has changed. -/
theorem c8_filter_by_mutates_original :
    (mkTransactions [cxPairIn, cxPairGen] [0, 1]).1 = [cxPairIn, cxPairGen] ∧
    (getTx [cxPairIn, cxPairGen] 1).action = .JOURNAL ∧
    (getTx (filterBy [cxPairIn, cxPairGen] [0, 1]
      { action := some .JOURNAL }).1 1).action = .JOURNAL_IN := by
  refine ⟨by decide, by decide, by decide⟩

/-- **C8** (amended).  `filter_by` returns a new ledger (the matching ids, the
original id sequence untouched), and — provided no transaction of the source
ledger carries the unresolved generic `JOURNAL` action — the shared heap is
unchanged, i.e. every field of every transaction the original ledger holds is
identical before and after the call.  (Without that proviso the re-run journal
reconciliation can reassign a surviving generic `JOURNAL`'s action in place,
mutating the original ledger — see the counterexample.) -/
theorem c8_filter_by_frame (heap : List Tx) (ids : List Nat) (args : FilterArgs)
    (hng : ∀ i ∈ ids, (getTx heap i).action ≠ .JOURNAL) :
    (filterBy heap ids args).1 = heap ∧
    (filterBy heap ids args).2 =
      ids.filter (fun i => lambdaFilter args (getTx heap i)) := by
  unfold filterBy mkTransactions
  exact ⟨matchJournal_noop heap _ (fun i hi => hng i (List.mem_of_mem_filter hi)), rfl⟩

/-- Witness for C8 (amended): filtering a ledger whose journal entries are all
direction-tagged leaves the heap unchanged. -/
theorem c8_filter_by_frame_witness :
    (filterBy [cxPairIn, wSell] [0, 1] { action := some .JOURNAL_IN }).1 =
      [cxPairIn, wSell] ∧
    (filterBy [cxPairIn, wSell] [0, 1] { action := some .JOURNAL_IN }).2 = [0] := by
  have h := c8_filter_by_frame [cxPairIn, wSell] [0, 1]
    { action := some .JOURNAL_IN } (by decide)
  refine ⟨h.1, ?_⟩
  rw [h.2]
  decide

/-! ## C9 — idempotence of `filter_by`

Journal reconciliation can only change a record in one way: give a generic
`JOURNAL` a direction.  The `evolves` relation captures this; it yields all
the preservation facts (year, grouping key, journal-membership) needed to
show that re-running `filter_by` with the same predicate changes nothing. -/

theorem evolves_refl (u : Tx) : evolves u u := Or.inl rfl

theorem evolves_trans {u v w : Tx} (h1 : evolves u v) (h2 : evolves v w) :
    evolves u w := by
  rcases h2 with rfl | ⟨hv, h2⟩
  · exact h1
  · rcases h1 with rfl | ⟨hu, h1⟩
    · exact Or.inr ⟨hv, h2⟩
    · rcases h1 with rfl | rfl <;> simp_all

theorem evolves_year {u v : Tx} (h : evolves u v) : v.year = u.year := by
  rcases h with rfl | ⟨-, rfl | rfl⟩ <;> rfl

theorem evolves_groupKeyFields {u v : Tx} (h : evolves u v) :
    v.date = u.date ∧ v.qty = u.qty := by
  rcases h with rfl | ⟨-, rfl | rfl⟩ <;> exact ⟨rfl, rfl⟩

theorem evolves_hasJournal {u v : Tx} (h : evolves u v) :
    v.action.hasJournal = u.action.hasJournal := by
  rcases h with rfl | ⟨hu, rfl | rfl⟩
  · rfl
  · simp [hu, Action.hasJournal]
  · simp [hu, Action.hasJournal]

theorem evolves_setIn {u x : Tx} (h : evolves u x) (hu : u.action = .JOURNAL) :
    evolves u { x with action := .JOURNAL_IN } := by
  rcases h with rfl | ⟨-, rfl | rfl⟩ <;> exact Or.inr ⟨hu, Or.inl rfl⟩

theorem evolves_setOut {u x : Tx} (h : evolves u x) (hu : u.action = .JOURNAL) :
    evolves u { x with action := .JOURNAL_OUT } := by
  rcases h with rfl | ⟨-, rfl | rfl⟩ <;> exact Or.inr ⟨hu, Or.inr rfl⟩

/-- The possible outcomes of the text heuristic. -/
theorem textTx_cases (t : Tx) :
    textTx t = t ∨ textTx t = { t with action := .JOURNAL_OUT } ∨
      textTx t = { t with action := .JOURNAL_IN } := by
  unfold textTx
  by_cases h1 : t.originalText ≠ ""
  · rw [if_pos h1]
    by_cases h2 : textOut t.originalText
    · rw [if_pos h2]
      exact Or.inr (Or.inl rfl)
    · rw [if_neg h2]
      by_cases h3 : textIn t.originalText
      · rw [if_pos h3]
        exact Or.inr (Or.inr rfl)
      · rw [if_neg h3]
        exact Or.inl rfl
  · rw [if_neg h1]
    exact Or.inl rfl

theorem textTx_evolves {t : Tx} (h : t.action = .JOURNAL) :
    evolves t (textTx t) := by
  rcases textTx_cases t with he | he | he <;> rw [he]
  · exact evolves_refl t
  · exact evolves_setOut (evolves_refl t) h
  · exact evolves_setIn (evolves_refl t) h

/-- The possible outcomes of the per-object resolution step. -/
theorem resolveTx_cases (t : Tx) :
    resolveTx t = t ∨ (t.action = .JOURNAL ∧
      (resolveTx t = { t with action := .JOURNAL_OUT } ∨
       resolveTx t = { t with action := .JOURNAL_IN })) := by
  unfold resolveTx
  by_cases h0 : t.action = .JOURNAL
  · rw [if_pos h0]
    by_cases h1 : t.originalText ≠ ""
    · rw [if_pos h1]
      by_cases h2 : textOut t.originalText
      · rw [if_pos h2]
        exact Or.inr ⟨h0, Or.inl rfl⟩
      · rw [if_neg h2]
        by_cases h3 : textIn t.originalText
        · rw [if_pos h3]
          exact Or.inr ⟨h0, Or.inr rfl⟩
        · rw [if_neg h3]
          exact Or.inl rfl
    · rw [if_neg h1]
      by_cases h4 : t.currency == "CAD"
      · rw [if_pos h4]
        exact Or.inr ⟨h0, Or.inr rfl⟩
      · rw [if_neg h4]
        exact Or.inr ⟨h0, Or.inl rfl⟩
  · rw [if_neg h0]
    exact Or.inl rfl

theorem resolveTx_evolves (t : Tx) : evolves t (resolveTx t) := by
  rcases resolveTx_cases t with he | ⟨h0, he | he⟩ <;> rw [he]
  · exact evolves_refl t
  · exact evolves_setOut (evolves_refl t) h0
  · exact evolves_setIn (evolves_refl t) h0

theorem resolveTx_idem (t : Tx) : resolveTx (resolveTx t) = resolveTx t := by
  rcases resolveTx_cases t with he | ⟨h0, he | he⟩
  · rw [he]
    exact he
  · rw [he]
    exact resolveTx_noop _ (by simp)
  · rw [he]
    exact resolveTx_noop _ (by simp)

/-! ### Heap-level write lemmas -/

theorem setTx_getTx_self (h : List Tx) (i : Nat) : setTx h i (getTx h i) = h := by
  by_cases hlt : i < h.length
  · apply heap_ext _ _ (setTx_length h i _)
    intro n
    by_cases hni : n = i
    · subst hni
      exact getTx_setTx_same h n _ hlt
    · exact getTx_setTx_ne h i n _ (fun he => hni he.symm)
  · exact setTx_oob h i _ (le_of_not_lt hlt)

theorem setTx_setTx_same (h : List Tx) (i : Nat) (v1 v2 : Tx) :
    setTx (setTx h i v1) i v2 = setTx h i v2 := by
  unfold setTx
  exact List.set_set v1 v2 h i

theorem setTx_comm (h : List Tx) (i j : Nat) (v1 v2 : Tx) (hij : i ≠ j) :
    setTx (setTx h i v1) j v2 = setTx (setTx h j v2) i v1 := by
  unfold setTx
  exact List.set_comm v1 v2 h hij

theorem getTx_resolveAt_same (h : List Tx) (i : Nat) :
    getTx (resolveAt h i) i = resolveTx (getTx h i) := by
  unfold resolveAt
  by_cases hi : i < h.length
  · exact getTx_setTx_same h i _ hi
  · rw [setTx_oob h i _ (le_of_not_lt hi), getTx_oob h i (le_of_not_lt hi)]
    exact (resolveTx_noop default (by decide)).symm

theorem getTx_resolveAt_ne (h : List Tx) (i j : Nat) (hij : j ≠ i) :
    getTx (resolveAt h i) j = getTx h j :=
  getTx_setTx_ne h i j _ (fun he => hij he.symm)

theorem resolveAt_length (h : List Tx) (i : Nat) :
    (resolveAt h i).length = h.length := setTx_length h i _

theorem resolveAt_evolves (h : List Tx) (i : Nat) :
    ∀ j, evolves (getTx h j) (getTx (resolveAt h i) j) := by
  intro j
  by_cases hij : j = i
  · subst hij
    rw [getTx_resolveAt_same]
    exact resolveTx_evolves _
  · rw [getTx_resolveAt_ne h i j hij]
    exact evolves_refl _

/-! ### The fold of per-object resolutions (groups of size 1 and ≥ 3) -/

theorem foldl_resolveAt_length :
    ∀ (g : List Nat) (h : List Tx), (g.foldl resolveAt h).length = h.length
  | [], _ => rfl
  | i :: is, h => by
    rw [List.foldl_cons, foldl_resolveAt_length is _, resolveAt_length]

theorem foldl_resolveAt_out :
    ∀ (g : List Nat) (h : List Tx) (j : Nat), j ∉ g →
      getTx (g.foldl resolveAt h) j = getTx h j
  | [], _, _, _ => rfl
  | i :: is, h, j, hj => by
    rw [List.foldl_cons,
      foldl_resolveAt_out is _ j (fun hm => hj (List.mem_cons_of_mem i hm)),
      getTx_resolveAt_ne h i j (fun he => hj (he ▸ List.mem_cons_self i is))]

theorem foldl_resolveAt_in :
    ∀ (g : List Nat) (h : List Tx), g.Nodup →
      ∀ i ∈ g, getTx (g.foldl resolveAt h) i = resolveTx (getTx h i)
  | [], _, _, i, hi => absurd hi (by simp)
  | i0 :: is, h, hnd, i, hi => by
    rw [List.foldl_cons]
    rcases List.mem_cons.mp hi with rfl | hi
    · rw [foldl_resolveAt_out is _ i (List.nodup_cons.mp hnd).1,
        getTx_resolveAt_same]
    · rw [foldl_resolveAt_in is _ (List.nodup_cons.mp hnd).2 i hi,
        getTx_resolveAt_ne h i0 i
          (fun he => (List.nodup_cons.mp hnd).1 (he ▸ hi))]

theorem foldl_resolveAt_evolves :
    ∀ (g : List Nat) (h : List Tx) (j : Nat),
      evolves (getTx h j) (getTx (g.foldl resolveAt h) j)
  | [], _, _ => evolves_refl _
  | i :: is, h, j => by
    rw [List.foldl_cons]
    exact evolves_trans (resolveAt_evolves h i j) (foldl_resolveAt_evolves is _ j)

/-! ### The 2-element all-generic branch in closed form -/

theorem currencyStep_eval (h : List Tx) (i : Nat) (inA outA : Bool) (v : Tx)
    (hread : getTx h i = v) :
    currencyStep (h, inA, outA) i =
      if v.action = .JOURNAL then
        if !inA && v.currency == "CAD" then
          (setTx h i { v with action := .JOURNAL_IN }, true, outA)
        else if !outA then (setTx h i { v with action := .JOURNAL_OUT }, inA, true)
        else (h, inA, outA)
      else (h, inA, outA) := by
  unfold currencyStep
  dsimp only
  rw [hread]

theorem setTx_write_both (h : List Tx) (a b : Nat) (hab : a ≠ b)
    (va vb x y : Tx) :
    setTx (setTx (setTx (setTx h a va) b vb) a x) b y = setTx (setTx h a x) b y := by
  rw [setTx_comm _ b a _ _ (Ne.symm hab), setTx_setTx_same, setTx_setTx_same]

theorem setTx_write_a_only (h : List Tx) (a b : Nat) (hab : a ≠ b)
    (va vb x : Tx) :
    setTx (setTx (setTx h a va) b vb) a x = setTx (setTx h a x) b vb := by
  rw [setTx_comm _ b a _ _ (Ne.symm hab), setTx_setTx_same]

theorem setTx_write_b_only (h : List Tx) (a b : Nat) (va vb y : Tx) :
    setTx (setTx (setTx h a va) b vb) b y = setTx (setTx h a va) b y :=
  setTx_setTx_same _ b vb y

/-- The heap-threading text pass plus currency loop of the all-generic pair
branch equals writing the `currencyPair` values back at the two (distinct,
generic, hence in-range) indices. -/
theorem pairGen_eq (h : List Tx) (a b : Nat) (hab : a ≠ b)
    (ha : (getTx h a).action = .JOURNAL) (hb : (getTx h b).action = .JOURNAL) :
    ([a, b].foldl currencyStep ([a, b].foldl textAt h, false, false)).1 =
      setTx (setTx h a (currencyPair (getTx h a) (getTx h b)).1) b
        (currencyPair (getTx h a) (getTx h b)).2 := by
  have hlena : a < h.length := journal_action_in_range h a ha
  have hlenb : b < h.length := journal_action_in_range h b hb
  have e1 : [a, b].foldl textAt h =
      setTx (setTx h a (textTx (getTx h a))) b (textTx (getTx h b)) := by
    show textAt (textAt h a) b = _
    unfold textAt
    rw [getTx_setTx_ne h a b _ hab]
  have ra : getTx (setTx (setTx h a (textTx (getTx h a))) b (textTx (getTx h b))) a =
      textTx (getTx h a) := by
    rw [getTx_setTx_ne _ b a _ (Ne.symm hab), getTx_setTx_same h a _ hlena]
  have rb : getTx (setTx (setTx h a (textTx (getTx h a))) b (textTx (getTx h b))) b =
      textTx (getTx h b) := by
    rw [getTx_setTx_same _ b _ (by rw [setTx_length]; exact hlenb)]
  rw [e1]
  show (currencyStep (currencyStep
    (setTx (setTx h a (textTx (getTx h a))) b (textTx (getTx h b)), false, false) a) b).1 = _
  rw [currencyStep_eval _ a false false (textTx (getTx h a)) ra]
  unfold currencyPair
  rw [Bool.not_false, Bool.true_and]
  by_cases hva : (textTx (getTx h a)).action = .JOURNAL
  · rw [if_pos hva, if_pos hva]
    by_cases hcad : ((textTx (getTx h a)).currency == "CAD") = true
    · rw [if_pos hcad, if_pos hcad]
      rw [currencyStep_eval _ b true false (textTx (getTx h b))
        (by rw [getTx_setTx_ne _ a b _ hab]; exact rb)]
      rw [Bool.not_true, Bool.false_and]
      by_cases hvb : (textTx (getTx h b)).action = .JOURNAL
      · rw [if_pos hvb, if_pos hvb, if_neg (by simp), if_pos (by simp)]
        exact setTx_write_both h a b hab _ _ _ _
      · rw [if_neg hvb, if_neg hvb]
        exact setTx_write_a_only h a b hab _ _ _
    · rw [if_neg hcad, if_neg hcad, if_pos (by simp)]
      rw [currencyStep_eval _ b false true (textTx (getTx h b))
        (by rw [getTx_setTx_ne _ a b _ hab]; exact rb)]
      rw [Bool.not_false, Bool.true_and]
      by_cases hvb : (textTx (getTx h b)).action = .JOURNAL
      · rw [if_pos hvb, if_pos hvb]
        by_cases hbcad : ((textTx (getTx h b)).currency == "CAD") = true
        · rw [if_pos hbcad, if_pos hbcad]
          exact setTx_write_both h a b hab _ _ _ _
        · rw [if_neg hbcad, if_neg hbcad, if_neg (by simp)]
          exact setTx_write_a_only h a b hab _ _ _
      · rw [if_neg hvb, if_neg hvb]
        exact setTx_write_a_only h a b hab _ _ _
  · rw [if_neg hva, if_neg hva]
    rw [currencyStep_eval _ b false false (textTx (getTx h b)) rb]
    rw [Bool.not_false, Bool.true_and]
    by_cases hvb : (textTx (getTx h b)).action = .JOURNAL
    · rw [if_pos hvb, if_pos hvb]
      by_cases hbcad : ((textTx (getTx h b)).currency == "CAD") = true
      · rw [if_pos hbcad, if_pos hbcad]
        exact setTx_write_b_only h a b _ _ _
      · rw [if_neg hbcad, if_neg hbcad, if_pos (by simp)]
        exact setTx_write_b_only h a b _ _ _
    · rw [if_neg hvb, if_neg hvb]

/-! ### `currencyPair` facts -/

/-- The first (sorted-first) record always leaves the all-generic branch with
a direction assigned. -/
theorem currencyPair_fst_resolved (ta tb : Tx) :
    (currencyPair ta tb).1.action ≠ .JOURNAL := by
  unfold currencyPair
  by_cases hva : (textTx ta).action = .JOURNAL
  · rw [if_pos hva]
    by_cases hcad : ((textTx ta).currency == "CAD") = true
    · rw [if_pos hcad]
      simp
    · rw [if_neg hcad]
      simp
  · rw [if_neg hva]
    exact hva

theorem currencyPair_fst_evolves (ta tb : Tx) (hta : ta.action = .JOURNAL) :
    evolves ta (currencyPair ta tb).1 := by
  unfold currencyPair
  by_cases hva : (textTx ta).action = .JOURNAL
  · rw [if_pos hva]
    by_cases hcad : ((textTx ta).currency == "CAD") = true
    · rw [if_pos hcad]
      exact evolves_setIn (textTx_evolves hta) hta
    · rw [if_neg hcad]
      exact evolves_setOut (textTx_evolves hta) hta
  · rw [if_neg hva]
    exact textTx_evolves hta

theorem currencyPair_snd_evolves (ta tb : Tx) (htb : tb.action = .JOURNAL) :
    evolves tb (currencyPair ta tb).2 := by
  unfold currencyPair
  by_cases hva : (textTx ta).action = .JOURNAL
  · rw [if_pos hva]
    by_cases hcad : ((textTx ta).currency == "CAD") = true
    · rw [if_pos hcad]
      by_cases hvb : (textTx tb).action = .JOURNAL
      · rw [if_pos hvb]
        exact evolves_setOut (textTx_evolves htb) htb
      · rw [if_neg hvb]
        exact textTx_evolves htb
    · rw [if_neg hcad]
      by_cases hvb : (textTx tb).action = .JOURNAL
      · rw [if_pos hvb]
        by_cases hbcad : ((textTx tb).currency == "CAD") = true
        · rw [if_pos hbcad]
          exact evolves_setIn (textTx_evolves htb) htb
        · rw [if_neg hbcad]
          exact textTx_evolves htb
      · rw [if_neg hvb]
        exact textTx_evolves htb
  · rw [if_neg hva]
    by_cases hvb : (textTx tb).action = .JOURNAL
    · rw [if_pos hvb]
      by_cases hbcad : ((textTx tb).currency == "CAD") = true
      · rw [if_pos hbcad]
        exact evolves_setIn (textTx_evolves htb) htb
      · rw [if_neg hbcad]
        exact evolves_setOut (textTx_evolves htb) htb
    · rw [if_neg hvb]
      exact textTx_evolves htb

/-! ### `processGroup` branch characterizations -/

theorem pg_else (h : List Tx) (g : List Nat) (hlen : g.length ≠ 2) :
    processGroup h g = g.foldl resolveAt h := by
  unfold processGroup
  rw [if_neg hlen]

theorem pg_pair_not_all_gen (h : List Tx) (i j : Nat)
    (hng : ¬ (getTx h i).action = .JOURNAL ∨ ¬ (getTx h j).action = .JOURNAL) :
    processGroup h [i, j] = h := by
  unfold processGroup
  rw [if_pos (show ([i, j] : List Nat).length = 2 from rfl)]
  dsimp only
  by_cases hio : (([i, j].map (fun x => (getTx h x).action)).contains Action.JOURNAL_IN &&
      ([i, j].map (fun x => (getTx h x).action)).contains Action.JOURNAL_OUT) = true
  · rw [if_pos hio]
  · rw [if_neg hio, if_neg ?na]
    case na =>
      intro hall
      rw [List.all_eq_true] at hall
      rcases hng with hng | hng
      · exact hng (of_decide_eq_true (hall i (by simp)))
      · exact hng (of_decide_eq_true (hall j (by simp)))

theorem pg_pair_gen_closed (h : List Tx) (i j : Nat) (hij : i ≠ j)
    (hi : (getTx h i).action = .JOURNAL) (hj : (getTx h j).action = .JOURNAL) :
    processGroup h [i, j] =
      if (getTx h j).currency < (getTx h i).currency then
        setTx (setTx h j (currencyPair (getTx h j) (getTx h i)).1) i
          (currencyPair (getTx h j) (getTx h i)).2
      else
        setTx (setTx h i (currencyPair (getTx h i) (getTx h j)).1) j
          (currencyPair (getTx h i) (getTx h j)).2 := by
  unfold processGroup
  rw [if_pos (show ([i, j] : List Nat).length = 2 from rfl)]
  dsimp only
  rw [if_neg ?c1, if_pos ?c2]
  case c1 =>
    simp [hi, hj]
  case c2 =>
    rw [List.all_eq_true]
    intro x hx
    rcases List.mem_cons.mp hx with rfl | hx
    · exact decide_eq_true hi
    · rcases List.mem_cons.mp hx with rfl | hx
      · exact decide_eq_true hj
      · exact absurd hx (by simp)
  unfold sortPairByCurrency
  dsimp only
  by_cases hc : (getTx h j).currency < (getTx h i).currency
  · rw [if_pos hc, if_pos hc]
    exact pairGen_eq h j i (Ne.symm hij) hj hi
  · rw [if_neg hc, if_neg hc]
    exact pairGen_eq h i j hij hi hj

/-! ### Structural facts about `processGroup` -/

theorem currencyStep_fst_length (st : List Tx × Bool × Bool) (i : Nat) :
    (currencyStep st i).1.length = st.1.length := by
  unfold currencyStep
  dsimp only
  split
  · split
    · exact setTx_length _ _ _
    · split
      · exact setTx_length _ _ _
      · rfl
  · rfl

theorem foldl_currencyStep_fst_length :
    ∀ (g : List Nat) (st : List Tx × Bool × Bool),
      ((g.foldl currencyStep st).1).length = st.1.length
  | [], _ => rfl
  | i :: is, st => by
    rw [List.foldl_cons, foldl_currencyStep_fst_length is _, currencyStep_fst_length]

theorem textAt_length (h : List Tx) (i : Nat) : (textAt h i).length = h.length :=
  setTx_length _ _ _

theorem foldl_textAt_length :
    ∀ (g : List Nat) (h : List Tx), (g.foldl textAt h).length = h.length
  | [], _ => rfl
  | i :: is, h => by
    rw [List.foldl_cons, foldl_textAt_length is _, textAt_length]

theorem currencyStep_fst_out (st : List Tx × Bool × Bool) (i j : Nat)
    (hij : j ≠ i) : getTx (currencyStep st i).1 j = getTx st.1 j := by
  unfold currencyStep
  dsimp only
  split
  · split
    · exact getTx_setTx_ne _ _ _ _ (Ne.symm hij)
    · split
      · exact getTx_setTx_ne _ _ _ _ (Ne.symm hij)
      · rfl
  · rfl

theorem foldl_currencyStep_out :
    ∀ (g : List Nat) (st : List Tx × Bool × Bool) (j : Nat), j ∉ g →
      getTx (g.foldl currencyStep st).1 j = getTx st.1 j
  | [], _, _, _ => rfl
  | i :: is, st, j, hj => by
    rw [List.foldl_cons,
      foldl_currencyStep_out is _ j (fun hm => hj (List.mem_cons_of_mem i hm)),
      currencyStep_fst_out st i j (fun he => hj (he ▸ List.mem_cons_self i is))]

theorem textAt_out (h : List Tx) (i j : Nat) (hij : j ≠ i) :
    getTx (textAt h i) j = getTx h j :=
  getTx_setTx_ne _ _ _ _ (Ne.symm hij)

theorem foldl_textAt_out :
    ∀ (g : List Nat) (h : List Tx) (j : Nat), j ∉ g →
      getTx (g.foldl textAt h) j = getTx h j
  | [], _, _, _ => rfl
  | i :: is, h, j, hj => by
    rw [List.foldl_cons,
      foldl_textAt_out is _ j (fun hm => hj (List.mem_cons_of_mem i hm)),
      textAt_out h i j (fun he => hj (he ▸ List.mem_cons_self i is))]

theorem sortPair_mem (h : List Tx) (g : List Nat) (x : Nat) :
    x ∈ sortPairByCurrency h g ↔ x ∈ g := by
  unfold sortPairByCurrency
  split
  · split
    · simp [or_comm]
    · exact Iff.rfl
  · exact Iff.rfl

theorem processGroup_length (h : List Tx) (g : List Nat) :
    (processGroup h g).length = h.length := by
  unfold processGroup
  split
  · dsimp only
    split
    · rfl
    · split
      · rw [foldl_currencyStep_fst_length, foldl_textAt_length]
      · rfl
  · exact foldl_resolveAt_length g h

theorem processGroup_out (h : List Tx) (g : List Nat) (j : Nat) (hj : j ∉ g) :
    getTx (processGroup h g) j = getTx h j := by
  unfold processGroup
  split
  · dsimp only
    split
    · rfl
    · split
      · rw [foldl_currencyStep_out _ _ j (fun hm => hj ((sortPair_mem h g j).mp hm)),
          foldl_textAt_out _ _ j (fun hm => hj ((sortPair_mem h g j).mp hm))]
      · rfl
  · exact foldl_resolveAt_out g h j hj

theorem processGroup_evolves (h : List Tx) (g : List Nat) (hnd : g.Nodup)
    (k : Nat) : evolves (getTx h k) (getTx (processGroup h g) k) := by
  by_cases hl2 : g.length = 2
  · obtain ⟨i, j, rfl⟩ := List.length_eq_two.mp hl2
    have hij : i ≠ j := by
      have := (List.nodup_cons.mp hnd).1
      simpa using this
    by_cases hgen : (getTx h i).action = .JOURNAL ∧ (getTx h j).action = .JOURNAL
    · have hri : i < h.length := journal_action_in_range h i hgen.1
      have hrj : j < h.length := journal_action_in_range h j hgen.2
      rw [pg_pair_gen_closed h i j hij hgen.1 hgen.2]
      by_cases hc : (getTx h j).currency < (getTx h i).currency
      · rw [if_pos hc]
        by_cases hki : k = i
        · subst hki
          rw [getTx_setTx_same _ k _ (by rw [setTx_length]; exact hri)]
          exact currencyPair_snd_evolves _ _ hgen.1
        · by_cases hkj : k = j
          · subst hkj
            rw [getTx_setTx_ne _ i k _ (fun he => hki he.symm),
              getTx_setTx_same _ k _ hrj]
            exact currencyPair_fst_evolves _ _ hgen.2
          · rw [getTx_setTx_ne _ i k _ (fun he => hki he.symm),
              getTx_setTx_ne _ j k _ (fun he => hkj he.symm)]
            exact evolves_refl _
      · rw [if_neg hc]
        by_cases hkj : k = j
        · subst hkj
          rw [getTx_setTx_same _ k _ (by rw [setTx_length]; exact hrj)]
          exact currencyPair_snd_evolves _ _ hgen.2
        · by_cases hki : k = i
          · subst hki
            rw [getTx_setTx_ne _ j k _ (fun he => hkj he.symm),
              getTx_setTx_same _ k _ hri]
            exact currencyPair_fst_evolves _ _ hgen.1
          · rw [getTx_setTx_ne _ j k _ (fun he => hkj he.symm),
              getTx_setTx_ne _ i k _ (fun he => hki he.symm)]
            exact evolves_refl _
    · rw [pg_pair_not_all_gen h i j (not_and_or.mp hgen)]
      exact evolves_refl _
  · rw [pg_else h g hl2]
    exact foldl_resolveAt_evolves g h k

theorem processGroup_sim (g : List Nat) (h₁ h₂ : List Tx)
    (hlen : h₁.length = h₂.length) (hnd : g.Nodup)
    (hag : ∀ i ∈ g, getTx h₁ i = getTx h₂ i) :
    ∀ k ∈ g, getTx (processGroup h₁ g) k = getTx (processGroup h₂ g) k := by
  by_cases hl2 : g.length = 2
  · obtain ⟨i, j, rfl⟩ := List.length_eq_two.mp hl2
    have hij : i ≠ j := by
      have := (List.nodup_cons.mp hnd).1
      simpa using this
    have hgi : getTx h₁ i = getTx h₂ i := hag i (by simp)
    have hgj : getTx h₁ j = getTx h₂ j := hag j (by simp)
    by_cases hgen : (getTx h₁ i).action = .JOURNAL ∧ (getTx h₁ j).action = .JOURNAL
    · have hri1 : i < h₁.length := journal_action_in_range h₁ i hgen.1
      have hrj1 : j < h₁.length := journal_action_in_range h₁ j hgen.2
      have hri2 : i < h₂.length := hlen ▸ hri1
      have hrj2 : j < h₂.length := hlen ▸ hrj1
      rw [pg_pair_gen_closed h₁ i j hij hgen.1 hgen.2,
        pg_pair_gen_closed h₂ i j hij (hgi ▸ hgen.1) (hgj ▸ hgen.2)]
      rw [← hgi, ← hgj]
      by_cases hc : (getTx h₁ j).currency < (getTx h₁ i).currency
      · rw [if_pos hc, if_pos hc]
        intro k hk
        rcases (by simpa using hk : k = i ∨ k = j) with rfl | rfl
        · rw [getTx_setTx_same _ k _ (by rw [setTx_length]; exact hri1),
            getTx_setTx_same _ k _ (by rw [setTx_length]; exact hri2)]
        · rw [getTx_setTx_ne _ i k _ (fun he => hij he),
            getTx_setTx_ne _ i k _ (fun he => hij he),
            getTx_setTx_same _ k _ hrj1, getTx_setTx_same _ k _ hrj2]
      · rw [if_neg hc, if_neg hc]
        intro k hk
        rcases (by simpa using hk : k = i ∨ k = j) with rfl | rfl
        · rw [getTx_setTx_ne _ j k _ (fun he => hij he.symm),
            getTx_setTx_ne _ j k _ (fun he => hij he.symm),
            getTx_setTx_same _ k _ hri1, getTx_setTx_same _ k _ hri2]
        · rw [getTx_setTx_same _ k _ (by rw [setTx_length]; exact hrj1),
            getTx_setTx_same _ k _ (by rw [setTx_length]; exact hrj2)]
    · rw [pg_pair_not_all_gen h₁ i j (not_and_or.mp hgen),
        pg_pair_not_all_gen h₂ i j (by
          rcases not_and_or.mp hgen with hn | hn
          · exact Or.inl (hgi ▸ hn)
          · exact Or.inr (hgj ▸ hn))]
      exact hag
  · rw [pg_else h₁ g hl2, pg_else h₂ g hl2]
    intro k hk
    rw [foldl_resolveAt_in g h₁ hnd k hk, foldl_resolveAt_in g h₂ hnd k hk,
      hag k hk]

theorem processGroup_idem (h : List Tx) (g : List Nat) (hnd : g.Nodup) :
    processGroup (processGroup h g) g = processGroup h g := by
  by_cases hl2 : g.length = 2
  · obtain ⟨i, j, rfl⟩ := List.length_eq_two.mp hl2
    have hij : i ≠ j := by
      have := (List.nodup_cons.mp hnd).1
      simpa using this
    by_cases hgen : (getTx h i).action = .JOURNAL ∧ (getTx h j).action = .JOURNAL
    · have hri : i < h.length := journal_action_in_range h i hgen.1
      have hrj : j < h.length := journal_action_in_range h j hgen.2
      rw [pg_pair_gen_closed h i j hij hgen.1 hgen.2]
      by_cases hc : (getTx h j).currency < (getTx h i).currency
      · rw [if_pos hc]
        apply pg_pair_not_all_gen
        right
        rw [getTx_setTx_ne _ i j _ hij, getTx_setTx_same _ j _ hrj]
        exact currencyPair_fst_resolved _ _
      · rw [if_neg hc]
        apply pg_pair_not_all_gen
        left
        rw [getTx_setTx_ne _ j i _ (Ne.symm hij), getTx_setTx_same _ i _ hri]
        exact currencyPair_fst_resolved _ _
    · rw [pg_pair_not_all_gen h i j (not_and_or.mp hgen)]
      exact pg_pair_not_all_gen h i j (not_and_or.mp hgen)
  · rw [pg_else h g hl2, pg_else _ g hl2]
    apply heap_ext
    · rw [foldl_resolveAt_length]
    · intro k
      by_cases hk : k ∈ g
      · rw [foldl_resolveAt_in g _ hnd k hk, foldl_resolveAt_in g h hnd k hk,
          resolveTx_idem]
      · rw [foldl_resolveAt_out g _ k hk]

/-! ### `match_journal_transactions` as a fold over disjoint groups -/

theorem matchJournal_eq_fold (h : List Tx) (ids : List Nat) :
    matchJournalTransactions h ids =
      ((groupKeysList h (journalIds h ids)).map
        (fun k => (journalIds h ids).filter (fun i => groupKey h i = k))).foldl
          processGroup h := by
  unfold matchJournalTransactions
  dsimp only
  rw [List.foldl_map]

theorem groupKeysList_aux_nodup (h : List Tx) :
    ∀ (idxs : List Nat) (acc : List (Int × ℚ)), acc.Nodup →
      (idxs.foldl (fun ks i => if ks.contains (groupKey h i) then ks
        else ks ++ [groupKey h i]) acc).Nodup
  | [], _, hacc => hacc
  | i :: is, acc, hacc => by
    rw [List.foldl_cons]
    apply groupKeysList_aux_nodup h is
    by_cases hc : acc.contains (groupKey h i) = true
    · rw [if_pos hc]
      exact hacc
    · rw [if_neg hc]
      rw [List.nodup_append]
      refine ⟨hacc, List.nodup_singleton _, ?_⟩
      intro a ha hb
      rw [List.mem_singleton] at hb
      subst hb
      exact hc (List.elem_eq_true_of_mem ha)

theorem groupKeysList_nodup (h : List Tx) (idxs : List Nat) :
    (groupKeysList h idxs).Nodup :=
  groupKeysList_aux_nodup h idxs [] List.nodup_nil

theorem groupKeysList_congr_aux (h₁ h₂ : List Tx)
    (hgk : ∀ i, groupKey h₁ i = groupKey h₂ i) :
    ∀ (l : List Nat) (acc : List (Int × ℚ)),
      l.foldl (fun ks i => if ks.contains (groupKey h₁ i) then ks
        else ks ++ [groupKey h₁ i]) acc =
      l.foldl (fun ks i => if ks.contains (groupKey h₂ i) then ks
        else ks ++ [groupKey h₂ i]) acc
  | [], _ => rfl
  | i :: is, acc => by
    rw [List.foldl_cons, List.foldl_cons, hgk i]
    exact groupKeysList_congr_aux h₁ h₂ hgk is _

theorem groupKeysList_congr (h₁ h₂ : List Tx)
    (hgk : ∀ i, groupKey h₁ i = groupKey h₂ i) (l : List Nat) :
    groupKeysList h₁ l = groupKeysList h₂ l :=
  groupKeysList_congr_aux h₁ h₂ hgk l []

theorem groups_disjoint (h : List Tx) (jids : List Nat) :
    ((groupKeysList h jids).map
      (fun k => jids.filter (fun i => groupKey h i = k))).Pairwise
        (fun g g' => ∀ x ∈ g, x ∉ g') := by
  rw [List.pairwise_map]
  apply List.Pairwise.imp ?_ (groupKeysList_nodup h jids)
  intro k k' hkk x hx hx'
  have h1 := of_decide_eq_true (List.mem_filter.mp hx).2
  have h2 := of_decide_eq_true (List.mem_filter.mp hx').2
  exact hkk (h1 ▸ h2)

theorem foldl_pg_length :
    ∀ (gs : List (List Nat)) (h : List Tx),
      (gs.foldl processGroup h).length = h.length
  | [], _ => rfl
  | g :: gs, h => by
    rw [List.foldl_cons, foldl_pg_length gs _, processGroup_length]

theorem foldl_pg_out :
    ∀ (gs : List (List Nat)) (h : List Tx) (j : Nat), (∀ g ∈ gs, j ∉ g) →
      getTx (gs.foldl processGroup h) j = getTx h j
  | [], _, _, _ => rfl
  | g :: gs, h, j, hj => by
    rw [List.foldl_cons,
      foldl_pg_out gs _ j (fun g' hg' => hj g' (List.mem_cons_of_mem g hg')),
      processGroup_out h g j (hj g (List.mem_cons_self g gs))]

theorem foldl_pg_evolves :
    ∀ (gs : List (List Nat)) (h : List Tx), (∀ g ∈ gs, g.Nodup) → ∀ k,
      evolves (getTx h k) (getTx (gs.foldl processGroup h) k)
  | [], _, _, _ => evolves_refl _
  | g :: gs, h, hnd, k => by
    rw [List.foldl_cons]
    exact evolves_trans
      (processGroup_evolves h g (hnd g (List.mem_cons_self g gs)) k)
      (foldl_pg_evolves gs _ (fun g' hg' => hnd g' (List.mem_cons_of_mem g hg')) k)

theorem foldl_pg_idem :
    ∀ (gs : List (List Nat)), (∀ g ∈ gs, g.Nodup) →
      gs.Pairwise (fun g g' => ∀ x ∈ g, x ∉ g') →
      ∀ h : List Tx,
        gs.foldl processGroup (gs.foldl processGroup h) = gs.foldl processGroup h
  | [], _, _, _ => rfl
  | g :: gs, hnd, hdisj, h => by
    rw [List.foldl_cons, List.foldl_cons]
    have hdj : ∀ g' ∈ gs, ∀ x ∈ g, x ∉ g' := fun g' hg' x hx =>
      (List.pairwise_cons.mp hdisj).1 g' hg' x hx
    have hgnd := hnd g (List.mem_cons_self g gs)
    have key : processGroup (gs.foldl processGroup (processGroup h g)) g =
        gs.foldl processGroup (processGroup h g) := by
      apply heap_ext
      · rw [processGroup_length]
      · intro k
        by_cases hk : k ∈ g
        · have hag : ∀ x ∈ g,
              getTx (gs.foldl processGroup (processGroup h g)) x =
                getTx (processGroup h g) x := fun x hx =>
            foldl_pg_out gs _ x (fun g' hg' => hdj g' hg' x hx)
          have hlen : (gs.foldl processGroup (processGroup h g)).length =
              (processGroup h g).length := foldl_pg_length gs _
          have hsim := processGroup_sim g _ _ hlen hgnd hag k hk
          rw [hsim, processGroup_idem h g hgnd]
          exact (hag k hk).symm
        · rw [processGroup_out _ g k hk]
    rw [key]
    exact foldl_pg_idem gs (fun g' hg' => hnd g' (List.mem_cons_of_mem g hg'))
      (List.pairwise_cons.mp hdisj).2 (processGroup h g)

/-- Journal reconciliation preserves the heap's length and only ever gives a
generic `JOURNAL` a direction. -/
theorem matchJournal_evolves (h : List Tx) (ids : List Nat) (hnd : ids.Nodup) :
    (matchJournalTransactions h ids).length = h.length ∧
    ∀ k, evolves (getTx h k) (getTx (matchJournalTransactions h ids) k) := by
  rw [matchJournal_eq_fold]
  refine ⟨foldl_pg_length _ h, ?_⟩
  intro k
  apply foldl_pg_evolves _ h ?_ k
  intro g hg
  obtain ⟨kk, -, rfl⟩ := List.mem_map.mp hg
  exact List.Nodup.filter _ (List.Nodup.filter _ hnd)

/-- Re-running journal reconciliation on an already reconciled ledger changes
nothing. -/
theorem matchJournal_idem (h : List Tx) (ids : List Nat) (hnd : ids.Nodup) :
    matchJournalTransactions (matchJournalTransactions h ids) ids =
      matchJournalTransactions h ids := by
  have hev := (matchJournal_evolves h ids hnd).2
  have hjid : journalIds (matchJournalTransactions h ids) ids =
      journalIds h ids := by
    unfold journalIds
    apply List.filter_congr
    intro i hmem
    rw [evolves_hasJournal (hev i)]
  have hgk : ∀ i, groupKey (matchJournalTransactions h ids) i = groupKey h i := by
    intro i
    unfold groupKey
    obtain ⟨hd, hq⟩ := evolves_groupKeyFields (hev i)
    rw [hd, hq]
  have hgrp : ∀ k ∈ groupKeysList h (journalIds h ids),
      (journalIds h ids).filter
        (fun i => groupKey (matchJournalTransactions h ids) i = k) =
      (journalIds h ids).filter (fun i => groupKey h i = k) := by
    intro k hk
    apply List.filter_congr
    intro i hmem
    rw [hgk i]
  rw [matchJournal_eq_fold (matchJournalTransactions h ids) ids, hjid,
    groupKeysList_congr (matchJournalTransactions h ids) h hgk (journalIds h ids),
    List.map_congr_left hgrp,
    matchJournal_eq_fold h ids]
  apply foldl_pg_idem
  · intro g hg
    obtain ⟨kk, -, rfl⟩ := List.mem_map.mp hg
    exact List.Nodup.filter _ (List.Nodup.filter _ hnd)
  · exact groups_disjoint h (journalIds h ids)

/-- The year-only filter in closed form. -/
theorem lambdaFilter_year (y : Int) (t : Tx) :
    lambdaFilter { year := some y } t =
      if y ≠ 0 then decide (t.year = y) else true := by
  simp [lambdaFilter]

/-- **C9.**  Filtering is idempotent: over a ledger of distinct transaction
objects, `filter_by(year = Y)` applied to its own result returns the same
ledger — the same transaction objects *and* an unchanged shared heap (the
re-run journal reconciliation changes nothing the first pass did not already
settle).  Moreover `filter_by` keeps exactly the transactions passing the
conjunction of the supplied predicates (the `lambda_filter` conjunction over
the source heap), and the empty argument set matches every transaction. -/
theorem c9_filter_by_idempotent (heap : List Tx) (ids : List Nat) (y : Int)
    (hnd : ids.Nodup) :
    ((filterBy (filterBy heap ids { year := some y }).1
        (filterBy heap ids { year := some y }).2 { year := some y }).2 =
      (filterBy heap ids { year := some y }).2) ∧
    ((filterBy (filterBy heap ids { year := some y }).1
        (filterBy heap ids { year := some y }).2 { year := some y }).1 =
      (filterBy heap ids { year := some y }).1) ∧
    (∀ (args : FilterArgs),
      (filterBy heap ids args).2 =
        ids.filter (fun i => lambdaFilter args (getTx heap i))) ∧
    (∀ t : Tx, lambdaFilter {} t = true) := by
  have hkeptnd : (ids.filter
      (fun i => lambdaFilter { year := some y } (getTx heap i))).Nodup :=
    List.Nodup.filter _ hnd
  have hev := (matchJournal_evolves heap
    (ids.filter (fun i => lambdaFilter { year := some y } (getTx heap i)))
    hkeptnd).2
  have hkept2 : (filterBy heap ids { year := some y }).2.filter
      (fun i => lambdaFilter { year := some y }
        (getTx (filterBy heap ids { year := some y }).1 i)) =
      (filterBy heap ids { year := some y }).2 := by
    apply List.filter_eq_self.mpr
    intro i hi
    have hpred : lambdaFilter { year := some y } (getTx heap i) = true :=
      (List.mem_filter.mp hi).2
    show lambdaFilter { year := some y } (getTx (matchJournalTransactions heap
      (ids.filter (fun i => lambdaFilter { year := some y } (getTx heap i)))) i) = true
    rw [lambdaFilter_year] at hpred ⊢
    rw [evolves_year (hev i)]
    exact hpred
  refine ⟨?_, ?_, fun args => rfl, fun t => rfl⟩
  · show (filterBy heap ids { year := some y }).2.filter
      (fun i => lambdaFilter { year := some y }
        (getTx (filterBy heap ids { year := some y }).1 i)) = _
    exact hkept2
  · show matchJournalTransactions (filterBy heap ids { year := some y }).1
      ((filterBy heap ids { year := some y }).2.filter
        (fun i => lambdaFilter { year := some y }
          (getTx (filterBy heap ids { year := some y }).1 i))) = _
    rw [hkept2]
    exact matchJournal_idem heap _ hkeptnd

/-- Witness for C9 at a concrete two-transaction ledger. -/
theorem c9_filter_by_idempotent_witness :
    (filterBy (filterBy [wSell, wBuyLater] [0, 1] { year := some 2020 }).1
        (filterBy [wSell, wBuyLater] [0, 1] { year := some 2020 }).2
        { year := some 2020 }).2 =
      (filterBy [wSell, wBuyLater] [0, 1] { year := some 2020 }).2 :=
  (c9_filter_by_idempotent [wSell, wBuyLater] [0, 1] 2020 (by decide)).1

end CapGains
